import Mathlib

/-!
Verification of the polymarket order-book core against its natural-language
specification.  The TypeScript source is shallowly embedded: decimal price and
size strings become `Dec` values (mantissa and decimal-digit count, so that
"0.6" and "0.60" stay distinguishable), JavaScript number arithmetic is read
exactly as rational arithmetic, `toFixed` becomes rounding to a fixed number of
decimals, JavaScript `Map`s become insertion-ordered association lists, and the
stable `Array.prototype.sort` becomes a stable insertion sort.
-/

namespace PolyBook

/-- A fixed-decimal numeral string: `num` is the mantissa and `exp` the number
of digits after the decimal point, so "0.60" is `⟨60, 2⟩` and "0.6" is
`⟨6, 1⟩`.  Two distinct `Dec` values denote distinct strings. -/
structure Dec where
  num : Int
  exp : Nat
deriving DecidableEq, Repr

/-- `parseFloat` on a fixed-decimal numeral, read exactly. -/
def parseDec (d : Dec) : ℚ := (d.num : ℚ) / (10 : ℚ) ^ d.exp

/-- Round a rational to `k` decimal places (the value of `toFixed(k)`). -/
def roundTo (k : Nat) (q : ℚ) : ℚ := (round (q * (10 : ℚ) ^ k) : ℚ) / (10 : ℚ) ^ k

/-- `toFixed(k)`: format a number with exactly `k` decimal digits. -/
def toFixed (k : Nat) (q : ℚ) : Dec := ⟨round (q * (10 : ℚ) ^ k), k⟩

/-- Strip trailing zero decimals; models how a JavaScript number forgets
trailing zeros of the literal it came from ("0.10" is the number 0.1, whose
canonical string is "0.1"). -/
def normDec : Dec → Dec
  | ⟨n, 0⟩ => ⟨n, 0⟩
  | ⟨n, e + 1⟩ => if n % 10 = 0 then normDec ⟨n / 10, e⟩ else ⟨n, e + 1⟩
termination_by d => d.exp

/-- `getPrecisionFromPrice`: count of digits after the decimal point of the
price string as written. -/
def getPrecisionFromPrice (p : Dec) : Nat := p.exp

/-- `getPrecisionFromTickSize`: decimal digits of the tick size's canonical
number string (`tickSize.toString()`), 0 for tick sizes at least 1. -/
def getPrecisionFromTickSize (t : Dec) : Nat :=
  if 1 ≤ parseDec t then 0 else (normDec t).exp

section MapOps

variable {κ : Type} {α : Type} [DecidableEq κ]

/-- `Map.get`: value of the first (unique) entry with the given key. -/
def mapGet : List (κ × α) → κ → Option α
  | [], _ => none
  | e :: rest, k => if e.1 = k then some e.2 else mapGet rest k

/-- `Map.set`: replace the entry with this key in place, else append. -/
def mapSet : List (κ × α) → κ → α → List (κ × α)
  | [], k, v => [(k, v)]
  | e :: rest, k, v => if e.1 = k then (k, v) :: rest else e :: mapSet rest k v

/-- `Map.delete`: drop the entry with this key (keys are unique in any list
built by `mapSet`, so removing every match models the JavaScript map). -/
def mapDelete (m : List (κ × α)) (k : κ) : List (κ × α) :=
  m.filter fun e => !(e.1 == k)

end MapOps

section StableSort

variable {α : Type}

/-- Insert `x` after every element that must come strictly before it; with
`lt a b` meaning the comparator orders `a` strictly before `b`, this is the
insertion step of a stable sort. -/
def insertBefore (lt : α → α → Bool) (x : α) : List α → List α
  | [] => [x]
  | y :: ys => if lt y x then y :: insertBefore lt x ys else x :: y :: ys

/-- Stable insertion sort; models `Array.prototype.sort` with a comparator
derived from a total preorder. -/
def stableSort (lt : α → α → Bool) : List α → List α
  | [] => []
  | x :: xs => insertBefore lt x (stableSort lt xs)

end StableSort

/-- Last element of the list satisfying the predicate (later entries win, as
with repeated writes to a JavaScript `Map`). -/
def lastMatch {β : Type} (p : β → Bool) : List β → Option β
  | [] => none
  | x :: xs =>
      match lastMatch p xs with
      | some y => some y
      | none => if p x then some x else none

/-! ## Data model: price maps and wire events -/

/-- `IPriceMap`: one asset's bid and ask sides, price string → size string,
each an insertion-ordered JavaScript `Map`. -/
structure PriceMap where
  bids : List (Dec × Dec)
  asks : List (Dec × Dec)
deriving DecidableEq, Repr

def emptyPriceMap : PriceMap := ⟨[], []⟩

/-- One entry of a price-change delta: `{price, size, side}`. -/
structure PriceChange where
  price : Dec
  size : Dec
  side : String
deriving DecidableEq, Repr

/-- One raw order level of a book snapshot: `{price, size}`. -/
structure RawLevel where
  price : Dec
  size : Dec
deriving DecidableEq, Repr

/-- Payload of a book-snapshot event: raw bid and ask levels. -/
structure SnapshotData where
  bids : List RawLevel
  asks : List RawLevel
deriving DecidableEq, Repr

/-! ## DeltaProcessor -/

/-- `toUpperCase()`, modelled directly on the character list. -/
def toUpperStr (s : String) : String := ⟨s.data.map Char.toUpper⟩

/-- `toLowerCase()`, modelled directly on the character list. -/
def toLowerStr (s : String) : String := ⟨s.data.map Char.toLower⟩

/-- `change.side?.toUpperCase?.() === 'BUY'` — case-insensitive side test. -/
def isBuySide (s : String) : Bool := toUpperStr s == "BUY"

/-- One step of `DeltaProcessor.delta`: a change with size parsing to zero
deletes the price from the targeted side, any other change sets it. -/
def applyChange (m : PriceMap) (c : PriceChange) : PriceMap :=
  if isBuySide c.side then
    if parseDec c.size = 0 then { m with bids := mapDelete m.bids c.price }
    else { m with bids := mapSet m.bids c.price c.size }
  else
    if parseDec c.size = 0 then { m with asks := mapDelete m.asks c.price }
    else { m with asks := mapSet m.asks c.price c.size }

/-- `DeltaProcessor.delta`: clone the current map and apply each price change
in order (the returned changed-price set is not modelled). -/
def DeltaProcessor_delta (current : PriceMap) (changes : List PriceChange) : PriceMap :=
  changes.foldl applyChange current

/-- `DeltaProcessor.snapshot`: build a brand-new price map from the snapshot
payload alone. -/
def DeltaProcessor_snapshot (s : SnapshotData) : PriceMap :=
  { bids := s.bids.foldl (fun m l => mapSet m l.price l.size) []
    asks := s.asks.foldl (fun m l => mapSet m l.price l.size) [] }

/-! ## MessageQueue.process (snapshot and delta handling for one asset) -/

/-- A queued book-snapshot event for one asset. -/
structure BookEvent where
  ts : Int
  data : SnapshotData
deriving DecidableEq, Repr

/-- A queued price-change event for one asset. -/
structure DeltaEvent where
  ts : Int
  data : List PriceChange
deriving DecidableEq, Repr

/-- Snapshot pass of `MessageQueue.process` for one asset group: each snapshot
replaces the stored map (discarding it — note the wildcard) and raises the
running last-applied timestamp to the maximum snapshot timestamp. -/
def applySnapshots : List BookEvent → Option PriceMap → Int → Option PriceMap × Int
  | [], m, lastTs => (m, lastTs)
  | e :: rest, _, lastTs =>
      applySnapshots rest (some (DeltaProcessor_snapshot e.data)) (max lastTs e.ts)

/-- Delta pass of `MessageQueue.process` for one asset group: a delta whose
timestamp is not strictly greater than the last-applied timestamp is skipped;
an absent map is treated as empty (the clone of `undefined`). -/
def applyDeltas (lastTs : Int) : List DeltaEvent → Option PriceMap → Option PriceMap
  | [], m => m
  | e :: rest, m =>
      applyDeltas lastTs rest
        (if e.ts ≤ lastTs then m
         else some (DeltaProcessor_delta (m.getD emptyPriceMap) e.data))

/-- `MessageQueue.process` restricted to the snapshot and delta handling of a
single asset's event group: apply all snapshots (tracking the max timestamp),
then apply the deltas filtered by the stale-delta rule; returns the new map and
the new `assetLastBookTs` value. -/
def processAssetGroup (m : Option PriceMap) (storedTs : Int)
    (snaps : List BookEvent) (deltas : List DeltaEvent) : Option PriceMap × Int :=
  let r := applySnapshots snaps m storedTs
  (applyDeltas r.2 deltas r.1, r.2)

/-! ## BookBuilder -/

/-- `IProcessedLevel`.  `price` stays the textual numeral; `size` models the
canonical number string via its exact value; `value`, `netSize`, `netValue`
model the `toFixed(2)` strings via their (rounded) values; `includedLevels`
is the list of raw source prices folded into the level. -/
structure ProcessedLevel where
  price : Dec
  size : ℚ
  value : ℚ
  netSize : ℚ
  netValue : ℚ
  includedLevels : List Dec
deriving DecidableEq, Repr

/-- The sort comparator used on level arrays throughout the book code:
ascending or descending by parsed price. -/
def levelCmp (asc : Bool) (a b : ProcessedLevel) : Bool :=
  if asc then parseDec a.price < parseDec b.price else parseDec b.price < parseDec a.price

/-- The entry comparator used on the raw `[price, size]` entries in
`BookBuilder.build`. -/
def entryCmp (asc : Bool) (a b : Dec × Dec) : Bool :=
  if asc then parseDec a.1 < parseDec b.1 else parseDec b.1 < parseDec a.1

/-- `BookBuilder._parseSide` with explicit running cumulative size and value. -/
def parseSideAux : List (Dec × Dec) → ℚ → ℚ → List ProcessedLevel
  | [], _, _ => []
  | (p, s) :: rest, cs, cv =>
      let sizeNum := parseDec s
      let value := parseDec p * sizeNum
      let cs' := cs + sizeNum
      let cv' := cv + value
      { price := p, size := sizeNum, value := roundTo 2 value,
        netSize := roundTo 2 cs', netValue := roundTo 2 cv',
        includedLevels := [] } :: parseSideAux rest cs' cv'

/-- `BookBuilder._parseSide`: entries to processed levels with cumulative
size/value from the top of the list. -/
def parseSide (entries : List (Dec × Dec)) : List ProcessedLevel :=
  parseSideAux entries 0 0

/-- `BookBuilder._invertPrice`: `1 − price` floored at 0, then formatted to the
given precision (prices in this model always parse to a finite number, so the
invalid branches do not arise). -/
def BookBuilder_invertPrice (p : Dec) (precision : Nat) : Dec :=
  toFixed precision (max (1 - parseDec p) 0)

/-- Third step of `BookBuilder._invertSide`: recompute per-level value and the
cumulative fields from price and size, walking down the list. -/
def recomputeCumulative : List ProcessedLevel → ℚ → ℚ → List ProcessedLevel
  | [], _, _ => []
  | l :: rest, cv, cs =>
      let priceNum := parseDec l.price
      let value := priceNum * l.size
      let cv' := cv + value
      let cs' := cs + l.size
      { price := l.price, size := l.size, value := roundTo 2 value,
        includedLevels := l.includedLevels,
        netValue := roundTo 2 cv', netSize := roundTo 2 cs' } :: recomputeCumulative rest cv' cs'

/-- `BookBuilder._invertSide`: invert every price, re-sort (ascending for a
target ask side, descending for a target bid side), then recompute cumulative
fields. -/
def BookBuilder_invertSide (levels : List ProcessedLevel) (targetAsk : Bool)
    (precision : Nat) : List ProcessedLevel :=
  let inverted := levels.map fun l =>
    { l with price := BookBuilder_invertPrice l.price precision, includedLevels := ([] : List Dec) }
  recomputeCumulative (stableSort (levelCmp targetAsk) inverted) 0 0

/-- One side of an `IFullOrderBook`: ranked level arrays plus derived best
prices, spread and midpoint (already clamped numbers, so rationals here). -/
structure SideBook where
  askArray : List ProcessedLevel
  bidArray : List ProcessedLevel
  bestAsk : Option ℚ
  bestBid : Option ℚ
  spread : Option ℚ
  midpoint : Option ℚ
deriving DecidableEq, Repr

/-- `IFullOrderBook`: native ("zero"/YES) and complementary ("one"/NO) sides. -/
structure FullOrderBook where
  zero : SideBook
  one : SideBook
  activeTickSize : Dec
deriving DecidableEq, Repr

/-- `BookBuilder.build`: sort both sides, compute cumulative levels, derive the
complementary side by inversion, and compute best prices, spread and
midpoint. -/
def BookBuilder_build (priceMap : PriceMap) (tickSize : Dec) : FullOrderBook :=
  let precision := getPrecisionFromTickSize tickSize
  let sortedBids := stableSort (entryCmp false) priceMap.bids
  let sortedAsks := stableSort (entryCmp true) priceMap.asks
  let yesBids := parseSide sortedBids
  let yesAsks := parseSide sortedAsks
  let noBids := BookBuilder_invertSide yesAsks false precision
  let noAsks := BookBuilder_invertSide yesBids true precision
  let yesBestAsk := yesAsks.head?.map fun l => roundTo precision (parseDec l.price)
  let yesBestBid := yesBids.head?.map fun l => roundTo precision (parseDec l.price)
  let noBestAsk := noAsks.head?.map fun l => roundTo precision (parseDec l.price)
  let noBestBid := noBids.head?.map fun l => roundTo precision (parseDec l.price)
  let yesSpread :=
    match yesBestAsk, yesBestBid with
    | some a, some b => some (roundTo precision (max (a - b) 0))
    | _, _ => none
  let yesMidpoint :=
    match yesBestAsk, yesBestBid with
    | some a, some b => some (roundTo precision ((a + b) / 2))
    | _, _ => none
  let noMidpoint :=
    match noBestAsk, noBestBid with
    | some a, some b => some (roundTo precision ((a + b) / 2))
    | _, _ => none
  { zero := { askArray := yesAsks, bidArray := yesBids,
              bestAsk := yesBestAsk, bestBid := yesBestBid,
              spread := yesSpread, midpoint := yesMidpoint }
    one := { askArray := noAsks, bidArray := noBids,
             bestAsk := noBestAsk, bestBid := noBestBid,
             spread := yesSpread, midpoint := noMidpoint }
    activeTickSize := tickSize }

/-! ## Aggregator -/

/-- One aggregation bucket: summed size and notional value plus the raw source
prices folded in. -/
structure Bucket where
  price : Dec
  size : ℚ
  value : ℚ
  includedLevels : List Dec
deriving DecidableEq, Repr

/-- `getBucketForPrice`: round a bid price down and an ask price up to the
nearest multiple of the tick size, formatted at the tick size's precision. -/
def getBucketForPrice (price : Dec) (isBid : Bool) (tickSize : Dec) : Dec :=
  let priceNum := parseDec price
  let t := parseDec tickSize
  let precision := getPrecisionFromTickSize tickSize
  if isBid then toFixed precision ((⌊priceNum / t⌋ : ℤ) * t)
  else toFixed precision ((⌈priceNum / t⌉ : ℤ) * t)

/-- Turn a bucket into a result level with zeroed cumulative fields, as in the
`Array.from(buckets.values()).map(...)` step. -/
def bucketToLevel (b : Bucket) : ProcessedLevel :=
  { price := b.price, size := b.size, value := roundTo 2 b.value,
    netSize := 0, netValue := 0, includedLevels := b.includedLevels }

/-- Final pass of both aggregation functions: recompute cumulative size and
value from the (already rounded) per-level size and value fields. -/
def accumulateLevels : List ProcessedLevel → ℚ → ℚ → List ProcessedLevel
  | [], _, _ => []
  | l :: rest, cs, cv =>
      let cs' := cs + l.size
      let cv' := cv + l.value
      { l with netSize := roundTo 2 cs', netValue := roundTo 2 cv' } ::
        accumulateLevels rest cs' cv'

/-- One iteration of the bucket loop in `Aggregator._aggregateSide` (the local
`bucket` variable is written out in full to keep the term `let`-free). -/
def aggregateBucketsStep (tickSize : Dec) (isBid : Bool) (bs : List (Dec × Bucket))
    (l : ProcessedLevel) : List (Dec × Bucket) :=
  match mapGet bs (getBucketForPrice l.price isBid tickSize) with
  | some e =>
      mapSet bs (getBucketForPrice l.price isBid tickSize)
        { e with size := e.size + l.size, value := e.value + l.value,
                 includedLevels := e.includedLevels ++ [l.price] }
  | none =>
      mapSet bs (getBucketForPrice l.price isBid tickSize)
        { price := getBucketForPrice l.price isBid tickSize, size := l.size,
          value := l.value, includedLevels := [l.price] }

/-- The bucket-accumulation fold of `Aggregator._aggregateSide`. -/
def aggregateBuckets (levels : List ProcessedLevel) (tickSize : Dec) (isBid : Bool) :
    List (Dec × Bucket) :=
  levels.foldl (aggregateBucketsStep tickSize isBid) []

/-- `Aggregator._aggregateSide`: bucket the levels by tick size, re-sort, and
recompute cumulative fields. -/
def aggregateSide (levels : List ProcessedLevel) (sortAsc : Bool) (tickSize : Dec)
    (isBid : Bool) : List ProcessedLevel :=
  accumulateLevels
    (stableSort (levelCmp sortAsc) ((aggregateBuckets levels tickSize isBid).map
      (fun e => bucketToLevel e.2)))
    0 0

/-- `Aggregator._invertPrice`: `1 − price` clamped to `[min, 1 − min]` with
`min` the supplied minimum price (defaulting to `10^-precision`); returns the
unrounded clamped number together with its formatted string. -/
def Aggregator_invertPrice (price : Dec) (precision : Nat) (minPrice : Option ℚ) :
    ℚ × Dec :=
  let inverted := 1 - parseDec price
  let mn := minPrice.getD ((1 : ℚ) / (10 : ℚ) ^ precision)
  let clamped := min (1 - mn) (max mn inverted)
  (clamped, toFixed precision clamped)

/-- One iteration of the bucket loop in `Aggregator._invertSide` (the local
variables holding the inverted price and inverted raw prices are written out
in full to keep the term `let`-free). -/
def invertBucketsStep (sourcePrecision targetPrecision : Nat) (minPrice : ℚ)
    (bs : List (Dec × Bucket)) (l : ProcessedLevel) : List (Dec × Bucket) :=
  match mapGet bs (Aggregator_invertPrice l.price sourcePrecision (some minPrice)).2 with
  | some e =>
      mapSet bs (Aggregator_invertPrice l.price sourcePrecision (some minPrice)).2
        { e with size := e.size + l.size,
                 value := e.value
                   + (Aggregator_invertPrice l.price sourcePrecision (some minPrice)).1
                     * l.size,
                 includedLevels := e.includedLevels
                   ++ l.includedLevels.map
                     (fun p => (Aggregator_invertPrice p targetPrecision none).2) }
  | none =>
      mapSet bs (Aggregator_invertPrice l.price sourcePrecision (some minPrice)).2
        { price := (Aggregator_invertPrice l.price sourcePrecision (some minPrice)).2,
          size := l.size,
          value := (Aggregator_invertPrice l.price sourcePrecision (some minPrice)).1
            * l.size,
          includedLevels := l.includedLevels.map
            (fun p => (Aggregator_invertPrice p targetPrecision none).2) }

/-- The bucket-accumulation fold of `Aggregator._invertSide`. -/
def invertBuckets (levels : List ProcessedLevel) (sourcePrecision targetPrecision : Nat) :
    List (Dec × Bucket) :=
  levels.foldl
    (invertBucketsStep sourcePrecision targetPrecision
      ((1 : ℚ) / (10 : ℚ) ^ sourcePrecision))
    []

/-- `Aggregator._invertSide`: invert and bucket by inverted price (with the
`10^-sourcePrecision` floor), re-sort, and recompute cumulative fields. -/
def Aggregator_invertSide (levels : List ProcessedLevel) (sortAsc : Bool)
    (sourcePrecision targetPrecision : Nat) : List ProcessedLevel :=
  accumulateLevels
    (stableSort (levelCmp sortAsc) ((invertBuckets levels sourcePrecision
      targetPrecision).map (fun e => bucketToLevel e.2)))
    0 0

/-- `Aggregator.aggregate`: re-bucket the native side at the target tick size
and re-derive the complementary side from it; best prices, spread and midpoint
are copied from the input book.  Note the source's swapped local names: the
variable holding the inverted aggregated bids is stored in the complementary
ask array and vice versa, so the complementary bid array is derived from the
native asks. -/
def Aggregator_aggregate (book : FullOrderBook) (targetTickSize marketTickSize : Dec) :
    FullOrderBook :=
  let targetPrecision := getPrecisionFromTickSize marketTickSize
  let sourcePrecision := getPrecisionFromTickSize targetTickSize
  let aggregatedYesBids := aggregateSide book.zero.bidArray false targetTickSize true
  let aggregatedYesAsks := aggregateSide book.zero.askArray true targetTickSize false
  let noBids := Aggregator_invertSide aggregatedYesBids true sourcePrecision targetPrecision
  let noAsks := Aggregator_invertSide aggregatedYesAsks false sourcePrecision targetPrecision
  { zero := { askArray := aggregatedYesAsks, bidArray := aggregatedYesBids,
              bestAsk := book.zero.bestAsk, bestBid := book.zero.bestBid,
              spread := book.zero.spread, midpoint := book.zero.midpoint }
    one := { askArray := noBids, bidArray := noAsks,
             bestAsk := book.one.bestAsk, bestBid := book.one.bestBid,
             spread := book.one.spread, midpoint := book.one.midpoint }
    activeTickSize := targetTickSize }

/-! ## Projector -/

/-- One numeric UI row produced by `Projector._processSide`. -/
structure ProjectedRow where
  price : Dec
  size : ℚ
  value : ℚ
  netSize : ℚ
  netValue : ℚ
  includedLevels : List Dec
deriving DecidableEq, Repr

/-- `IProjectedSideData`: rows plus best price, liquidity flag and totals. -/
structure ProjectedSideData where
  rows : List ProjectedRow
  bestPrice : Option Dec
  hasLiquidity : Bool
  totalSize : ℚ
  totalValue : ℚ
deriving DecidableEq, Repr

/-- The row-building loop of `Projector._processSide` (before the filter). -/
def projectRows : List ProcessedLevel → ℚ → ℚ → List ProjectedRow
  | [], _, _ => []
  | l :: rest, cs, cv =>
      let cs' := cs + l.size
      let cv' := cv + l.value
      { price := l.price, size := l.size, value := l.value,
        netSize := cs', netValue := cv',
        includedLevels := l.includedLevels } :: projectRows rest cs' cv'

/-- `Projector._processSide`: build all rows, then apply the optional filter
(`rows.slice(0, n)` in minified mode) to the returned row list only; totals
and the liquidity flag are computed from the unfiltered rows. -/
def projectSide (levels : List ProcessedLevel) (limit : Option Nat) : ProjectedSideData :=
  let rows := projectRows levels 0 0
  { rows := match limit with | none => rows | some n => rows.take n
    bestPrice := (levels.head?).map (·.price)
    hasLiquidity := decide (0 < rows.length)
    totalSize := (rows.getLast?.map (·.netSize)).getD 0
    totalValue := (rows.getLast?.map (·.netValue)).getD 0 }

/-- `IProjectedSide`: both row sets of one token plus spread, midpoint and the
untruncated side counts. -/
structure ProjectedSide where
  asks : ProjectedSideData
  bids : ProjectedSideData
  spread : Option ℚ
  midpoint : Option ℚ
  totalBidCount : Nat
  totalAskCount : Nat
deriving DecidableEq, Repr

/-- `IProjectedOrderBook`: the UI-shaped projection. -/
structure ProjectedOrderBook where
  tickSize : Dec
  zero : ProjectedSide
  one : ProjectedSide
  bestBuyZero : Option Dec
  bestSellZero : Option Dec
  bestBuyOne : Option Dec
  bestSellOne : Option Dec
  ts : Int
deriving DecidableEq, Repr

/-- `Projector.project`: in minified mode each side's rows are truncated to
`max(5, 10 − opposite rows)` — the ask sides against the opposite raw level
count, the bid sides against the already-truncated ask row count. -/
def Projector_project (book : FullOrderBook) (tickSize : Dec) (minified : Bool)
    (ts : Int) : ProjectedOrderBook :=
  let yesAsks := projectSide book.zero.askArray
    (if minified then some (max 5 (10 - book.zero.bidArray.length)) else none)
  let yesBids := projectSide book.zero.bidArray
    (if minified then some (max 5 (10 - yesAsks.rows.length)) else none)
  let noAsks := projectSide book.one.askArray
    (if minified then some (max 5 (10 - book.one.bidArray.length)) else none)
  let noBids := projectSide book.one.bidArray
    (if minified then some (max 5 (10 - noAsks.rows.length)) else none)
  let precision := getPrecisionFromTickSize tickSize
  { tickSize := tickSize
    zero := { asks := yesAsks, bids := yesBids,
              spread := book.zero.spread, midpoint := book.zero.midpoint,
              totalBidCount := book.zero.bidArray.length,
              totalAskCount := book.zero.askArray.length }
    one := { asks := noAsks, bids := noBids,
             spread := book.one.spread, midpoint := book.one.midpoint,
             totalBidCount := book.one.bidArray.length,
             totalAskCount := book.one.askArray.length }
    bestBuyZero := book.zero.bestAsk.map (toFixed precision)
    bestSellZero := book.zero.bestBid.map (toFixed precision)
    bestBuyOne := book.one.bestAsk.map (toFixed precision)
    bestSellOne := book.one.bestBid.map (toFixed precision)
    ts := ts }

/-! ## OrderBookManager -/

/-- Sum of two decimal numerals as a JavaScript number, re-serialised by
`toString()`: the exact sum with trailing zero decimals stripped. -/
def addDec (a b : Dec) : Dec :=
  let e := max a.exp b.exp
  normDec ⟨a.num * 10 ^ (e - a.exp) + b.num * 10 ^ (e - b.exp), e⟩

/-- One step of `getInvertedPriceMap`'s per-side loop: invert the price, drop
it when the inverted value lies outside `[minPrice, 1 − minPrice]`, otherwise
merge into the accumulating side under the `toFixed(precision)` key (an
existing entry's size string is parsed, summed and re-serialised). -/
def invertStep (precision : Nat) (m : List (Dec × Dec)) (entry : Dec × Dec) :
    List (Dec × Dec) :=
  let noPriceNum := 1 - parseDec entry.1
  let minPrice := (1 : ℚ) / (10 : ℚ) ^ precision
  if noPriceNum < minPrice ∨ 1 - minPrice < noPriceNum then m
  else
    let noPriceStr := toFixed precision noPriceNum
    match mapGet m noPriceStr with
    | some existingSize => mapSet m noPriceStr (addDec existingSize entry.2)
    | none => mapSet m noPriceStr entry.2

/-- `OrderBookManager.getInvertedPriceMap` applied to a present YES map:
NO bids from YES asks and NO asks from YES bids, at fixed precision
(defaulting to 4 at both call sites). -/
def getInvertedPriceMap (yes : PriceMap) (precision : Nat) : PriceMap :=
  { bids := yes.asks.foldl (invertStep precision) []
    asks := yes.bids.foldl (invertStep precision) [] }

/-- The `Side` enum of the clob client. -/
inductive Side where
  | BUY
  | SELL
deriving DecidableEq, Repr

/-- The slice of `OrderBookManager` state that the snapshot query reads. -/
structure ManagerState where
  clobTokenIds : List String
  priceMaps : List (String × PriceMap)
deriving DecidableEq, Repr

/-- `OrderBookManager.getOrderBookSnapshotByTokenId`: the primary token's own
map, the secondary token's map derived by inversion at precision 4 (looking the
primary up lowercased, as the source does), or a thrown error when no map
exists; the buy side reads the asks, any other side the bids. -/
def getOrderBookSnapshotByTokenId (st : ManagerState) (tokenId : String)
    (side : Side) : Except String (List (Dec × Dec)) :=
  let priceMap : Option PriceMap :=
    if st.clobTokenIds.get? 0 = some tokenId then
      mapGet st.priceMaps tokenId
    else if st.clobTokenIds.get? 1 = some tokenId then
      (mapGet st.priceMaps (toLowerStr (st.clobTokenIds.getD 0 ""))).map
        (fun m => getInvertedPriceMap m 4)
    else none
  match priceMap with
  | none => Except.error ("Price map not found for token id: " ++ tokenId)
  | some m => Except.ok (if side = Side.BUY then m.asks else m.bids)

/-! ## WebSocketConnection (reconnect bookkeeping) -/

/-- `ConnectionState` of the resilient transport connection. -/
inductive ConnectionState where
  | DISCONNECTED
  | CONNECTING
  | CONNECTED
  | RECONNECTING
  | CLOSED
deriving DecidableEq, Repr

/-- The timer-free slice of `WebSocketConnection` state that the open and
reconnect handlers touch. -/
structure WsConnState where
  state : ConnectionState
  reconnectAttempts : Nat
  lastPingTs : Int
  lastPongTs : Int
deriving DecidableEq, Repr

/-- The delay computed in `scheduleReconnect`:
`min(base × 2^attempts + jitter, maxDelay)` with jitter drawn uniformly from
[0, 1000). -/
def computeReconnectDelay (baseMs maxMs : ℚ) (attempts : Nat) (jitter : ℚ) : ℚ :=
  min (baseMs * 2 ^ attempts + jitter) maxMs

/-- `handleOpen`: settle in CONNECTED, reset the attempts counter, and reset
the heartbeat timestamps. -/
def handleOpen (c : WsConnState) (now : Int) : WsConnState :=
  { c with state := ConnectionState.CONNECTED, reconnectAttempts := 0,
           lastPingTs := 0, lastPongTs := now }

/-! ## BtcAggregatedPriceService (aggregation core) -/

/-- Price-quoting currency of an exchange source (the FX source never stores a
price, so only these two appear in `sourceTypes`). -/
inductive SourceType where
  | USD
  | USDT
deriving DecidableEq, Repr

/-- The aggregation-relevant slice of `BtcAggregatedPriceService` state. -/
structure AggState where
  sourcePrices : List (String × ℚ)
  sourceTypes : List (String × SourceType)
  usdtRate : ℚ
  hasValidUsdtRate : Bool
  currentPrice : ℚ
  lastUpdateTimestamp : Int
deriving DecidableEq, Repr

/-- `getActiveSources`: the USD-converted prices of the active sources, in
source insertion order — non-positive prices are skipped, USD prices pass
through, USDT prices are multiplied by the FX rate only once a valid rate has
been observed. -/
def getActiveSources (st : AggState) : List ℚ :=
  st.sourcePrices.filterMap fun (e : String × ℚ) =>
    if e.2 ≤ 0 then (none : Option ℚ)
    else
      match mapGet st.sourceTypes e.1 with
      | some SourceType.USD => some e.2
      | some SourceType.USDT => if st.hasValidUsdtRate then some (e.2 * st.usdtRate) else none
      | none => none

/-- The median computation inside `runAggregation`: sort ascending, take the
middle element, averaging the two middle elements for an even count. -/
def computeMedian (l : List ℚ) : ℚ :=
  let sorted := stableSort (fun a b => a < b) l
  let midIdx := l.length / 2
  if l.length % 2 = 0 then ((sorted.getD (midIdx - 1) 0) + sorted.getD midIdx 0) / 2
  else sorted.getD midIdx 0

/-- `runAggregation`: a no-op below the 3-source quorum; otherwise compute the
median of the active prices and store it (with the current time) only when it
moved by more than the 0.01 epsilon. -/
def runAggregation (st : AggState) (now : Int) : AggState :=
  let activePrices := getActiveSources st
  if activePrices.length < 3 then st
  else
    let median := computeMedian activePrices
    if 1 / 100 < |median - st.currentPrice| then
      { st with currentPrice := median, lastUpdateTimestamp := now }
    else st

/-! ## Spec-side definitions (for refinement comparisons) -/

/-- Modelled from the spec (claim C1's wording): the claimed complementary
price — `1 − p` clamped to `[tick, 1 − tick]` and formatted to the tick size's
decimal precision. -/
def specClaimedInvert (tickSize : Dec) (p : Dec) : Dec :=
  let t := parseDec tickSize
  toFixed (getPrecisionFromTickSize tickSize)
    (min (1 - t) (max t (1 - parseDec p)))

/-- Modelled from the spec (claim C6's wording): the arithmetic median —
sort ascending (Mathlib's insertion sort), even counts average the two middle
values. -/
def medianSpec (l : List ℚ) : ℚ :=
  let sorted := l.insertionSort (· ≤ ·)
  let midIdx := l.length / 2
  if l.length % 2 = 0 then ((sorted.getD (midIdx - 1) 0) + sorted.getD midIdx 0) / 2
  else sorted.getD midIdx 0

/-- The fields of a processed level that claim C2 compares (everything except
the raw contributing-price annotations). -/
def levelKey (l : ProcessedLevel) : Dec × ℚ × ℚ × ℚ × ℚ :=
  (l.price, l.size, l.value, l.netSize, l.netValue)

/-- The last change in a delta batch that targets the given price on the given
side. -/
def lastChangeAt (changes : List PriceChange) (p : Dec) (buy : Bool) :
    Option PriceChange :=
  lastMatch (fun c => c.price == p && isBuySide c.side == buy) changes

/-- The ask entries of a YES map that contribute to the NO bid at the given
4-decimal price: inverted price inside `[10^-4, 1 − 10^-4]` and formatting to
4 decimals hitting the key. -/
def contributingEntries (entries : List (Dec × Dec)) (precision : Nat) (q : Dec) :
    List (Dec × Dec) :=
  entries.filter fun e =>
    let noPriceNum := 1 - parseDec e.1
    let minPrice := (1 : ℚ) / (10 : ℚ) ^ precision
    if noPriceNum < minPrice ∨ 1 - minPrice < noPriceNum then false
    else toFixed precision noPriceNum == q

/-- Hypothesis bundle for claim C2's amended statement: a price-map entry whose
price string is written at exactly the tick's precision, denotes a multiple of
the tick inside [tick, 1 − tick], and whose notional value — on the native and
on the inverted side — is exact at two decimals (so that per-level rounding
commutes with summation). -/
def GoodEntry (t : Dec) (en : Dec × Dec) : Prop :=
  en.1.exp = getPrecisionFromTickSize t
  ∧ (∃ n : ℤ, parseDec en.1 = (n : ℚ) * parseDec t)
  ∧ parseDec t ≤ parseDec en.1
  ∧ parseDec en.1 ≤ 1 - parseDec t
  ∧ roundTo 2 (parseDec en.1 * parseDec en.2) = parseDec en.1 * parseDec en.2
  ∧ roundTo 2 ((1 - parseDec en.1) * parseDec en.2) = (1 - parseDec en.1) * parseDec en.2

/-- The processed level that `Aggregator._aggregateSide` produces for a single
entry that forms its own bucket (the singleton-bucket image of an entry). -/
def nativeLevel (en : Dec × Dec) : ProcessedLevel :=
  bucketToLevel { price := en.1, size := parseDec en.2,
                  value := roundTo 2 (parseDec en.1 * parseDec en.2),
                  includedLevels := [en.1] }

/-- The processed level that `Aggregator._invertSide` (at equal source and
target precision `k`) produces for a single entry that forms its own inverted
bucket. -/
def invLevel (k : Nat) (en : Dec × Dec) : ProcessedLevel :=
  bucketToLevel
    { price := (Aggregator_invertPrice en.1 k (some ((1 : ℚ) / (10 : ℚ) ^ k))).2,
      size := parseDec en.2,
      value := (Aggregator_invertPrice en.1 k (some ((1 : ℚ) / (10 : ℚ) ^ k))).1
        * parseDec en.2,
      includedLevels := [en.1].map (fun p => (Aggregator_invertPrice p k none).2) }

/-! ## Lemma zone: all theorems follow; no further definitions -/

section BasicLemmas

variable {κ : Type} {α : Type} [DecidableEq κ]

theorem parseDec_toFixed (k : Nat) (q : ℚ) : parseDec (toFixed k q) = roundTo k q := rfl

theorem parseDec_normDec (d : Dec) : parseDec (normDec d) = parseDec d := by
  induction d using normDec.induct with
  | case1 n => rw [normDec]
  | case2 n e h ih =>
      rw [normDec, if_pos h, ih]
      have h10 : (10 : ℤ) ∣ n := Int.dvd_of_emod_eq_zero h
      obtain ⟨c, hc⟩ := h10
      subst hc
      simp only [parseDec, Int.mul_ediv_cancel_left _ (by norm_num : (10 : ℤ) ≠ 0)]
      push_cast
      rw [pow_succ]
      field_simp
      ring
  | case3 n e h => rw [normDec, if_neg h]

theorem mapGet_mapSet_self (m : List (κ × α)) (k : κ) (v : α) :
    mapGet (mapSet m k v) k = some v := by
  induction m with
  | nil => simp [mapGet, mapSet]
  | cons e rest ih =>
      by_cases h : e.1 = k
      · simp [mapGet, mapSet, h]
      · simp [mapGet, mapSet, h, ih]

theorem mapGet_mapSet_ne (m : List (κ × α)) (k k' : κ) (v : α) (h : k ≠ k') :
    mapGet (mapSet m k v) k' = mapGet m k' := by
  induction m with
  | nil =>
      rw [mapSet, mapGet, mapGet, if_neg h, mapGet]
  | cons e rest ih =>
      by_cases he : e.1 = k
      · rw [mapSet, if_pos he, mapGet, if_neg h, mapGet, if_neg (fun hc => h (he.symm.trans hc))]
      · rw [mapSet, if_neg he, mapGet, mapGet]
        by_cases he' : e.1 = k'
        · rw [if_pos he', if_pos he']
        · rw [if_neg he', if_neg he', ih]

theorem mapGet_eq_none_of_not_mem (m : List (κ × α)) (k : κ)
    (h : k ∉ m.map Prod.fst) : mapGet m k = none := by
  induction m with
  | nil => rfl
  | cons e rest ih =>
      simp only [List.map_cons, List.mem_cons, not_or] at h
      rw [mapGet, if_neg (fun hc => h.1 hc.symm)]
      exact ih h.2

theorem mapGet_mapDelete_self (m : List (κ × α)) (k : κ) :
    mapGet (mapDelete m k) k = none := by
  induction m with
  | nil => rfl
  | cons e rest ih =>
      by_cases h : e.1 = k
      · simpa [mapDelete, List.filter_cons, h] using ih
      · simpa [mapDelete, List.filter_cons, h, mapGet] using ih

theorem mapGet_mapDelete_ne (m : List (κ × α)) (k k' : κ) (h : k ≠ k') :
    mapGet (mapDelete m k) k' = mapGet m k' := by
  induction m with
  | nil => rfl
  | cons e rest ih =>
      by_cases he : e.1 = k
      · have he' : e.1 ≠ k' := fun hc => h (he.symm.trans hc)
        simpa [mapDelete, List.filter_cons, he, mapGet, he', h] using ih
      · by_cases he' : e.1 = k'
        · have hks : k' ≠ k := fun hc => h hc.symm
          simp [mapDelete, List.filter_cons, he, mapGet, he', hks]
        · simpa [mapDelete, List.filter_cons, he, mapGet, he'] using ih

theorem insertBefore_perm (lt : α → α → Bool) (x : α) (l : List α) :
    List.Perm (insertBefore lt x l) (x :: l) := by
  induction l with
  | nil => rfl
  | cons y ys ih =>
      rw [insertBefore]
      by_cases h : lt y x
      · simp only [if_pos h]
        exact (List.Perm.cons y ih).trans (List.Perm.swap x y ys)
      · simp [if_neg h]

theorem stableSort_perm (lt : α → α → Bool) (l : List α) :
    List.Perm (stableSort lt l) l := by
  induction l with
  | nil => rfl
  | cons x xs ih =>
      exact (insertBefore_perm lt x (stableSort lt xs)).trans (List.Perm.cons x ih)

theorem mem_stableSort (lt : α → α → Bool) (l : List α) (a : α) :
    a ∈ stableSort lt l ↔ a ∈ l :=
  (stableSort_perm lt l).mem_iff

theorem mem_insertBefore (lt : α → α → Bool) (x : α) (l : List α) (a : α) :
    a ∈ insertBefore lt x l ↔ a = x ∨ a ∈ l := by
  rw [(insertBefore_perm lt x l).mem_iff, List.mem_cons]

theorem insertBefore_pairwise (lt : α → α → Bool)
    (hasym : ∀ a b, lt a b = true → lt b a = false)
    (hnt : ∀ a b c, lt b a = false → lt c b = false → lt c a = false)
    (x : α) (l : List α) (h : l.Pairwise (fun a b => lt b a = false)) :
    (insertBefore lt x l).Pairwise (fun a b => lt b a = false) := by
  induction l with
  | nil => simp [insertBefore]
  | cons y ys ih =>
      rw [List.pairwise_cons] at h
      rw [insertBefore]
      by_cases hlt : lt y x
      · rw [if_pos hlt, List.pairwise_cons]
        refine ⟨fun z hz => ?_, ih h.2⟩
        rw [mem_insertBefore] at hz
        rcases hz with rfl | hz
        · exact hasym y z hlt
        · exact h.1 z hz
      · rw [if_neg hlt, List.pairwise_cons]
        refine ⟨fun z hz => ?_, List.pairwise_cons.2 h⟩
        rw [List.mem_cons] at hz
        rcases hz with rfl | hz
        · exact Bool.eq_false_iff.2 hlt
        · exact hnt x y z (Bool.eq_false_iff.2 hlt) (h.1 z hz)

theorem stableSort_pairwise (lt : α → α → Bool)
    (hasym : ∀ a b, lt a b = true → lt b a = false)
    (hnt : ∀ a b c, lt b a = false → lt c b = false → lt c a = false)
    (l : List α) :
    (stableSort lt l).Pairwise (fun a b => lt b a = false) := by
  induction l with
  | nil => simp [stableSort]
  | cons x xs ih => exact insertBefore_pairwise lt hasym hnt x _ ih

theorem insertBefore_eq_cons (lt : α → α → Bool) (x : α) (l : List α)
    (h : ∀ y ∈ l, lt y x = false) : insertBefore lt x l = x :: l := by
  cases l with
  | nil => rfl
  | cons y ys =>
      rw [insertBefore, if_neg]
      rw [h y (List.mem_cons_self y ys)]
      simp

theorem stableSort_eq_self (lt : α → α → Bool) (l : List α)
    (h : l.Pairwise (fun a b => lt b a = false)) : stableSort lt l = l := by
  induction l with
  | nil => rfl
  | cons x xs ih =>
      rw [List.pairwise_cons] at h
      rw [stableSort, ih h.2, insertBefore_eq_cons lt x xs h.1]

end BasicLemmas

section FoldLemmas

variable {β κ γ : Type} [DecidableEq κ]

theorem mapGet_setFold (kf : β → κ) (vf : β → γ) (xs : List β)
    (acc : List (κ × γ)) (q : κ) :
    mapGet (xs.foldl (fun m x => mapSet m (kf x) (vf x)) acc) q
      = match lastMatch (fun x => kf x == q) xs with
        | some x => some (vf x)
        | none => mapGet acc q := by
  induction xs generalizing acc with
  | nil => rfl
  | cons x rest ih =>
      rw [List.foldl_cons, ih]
      cases hl : lastMatch (fun x => kf x == q) rest with
      | some y => simp [lastMatch, hl]
      | none =>
          simp only [lastMatch, hl]
          by_cases hx : kf x = q
          · subst hx
            simp [mapGet_mapSet_self]
          · simp [hx, mapGet_mapSet_ne _ _ _ _ hx]

end FoldLemmas

theorem projectRows_length (levels : List ProcessedLevel) (cs cv : ℚ) :
    (projectRows levels cs cv).length = levels.length := by
  induction levels generalizing cs cv with
  | nil => rfl
  | cons l rest ih => simp [projectRows, ih]

/-! ## Claim C8: reconnect backoff schedule and attempt-counter reset -/

/-- C8: with base delay 1000 ms and max delay 30000 ms, and the uniform jitter
taken as 0, the reconnect delays for attempts 0 through 6 are 1000, 2000, 4000,
8000, 16000, 30000, 30000 ms; and a successful open resets the attempts
counter to 0 (settling the connection in CONNECTED). -/
theorem C8_reconnect_backoff :
    (([0, 1, 2, 3, 4, 5, 6] : List Nat).map fun a => computeReconnectDelay 1000 30000 a 0)
      = [1000, 2000, 4000, 8000, 16000, 30000, 30000]
    ∧ ∀ (c : WsConnState) (now : Int),
        (handleOpen c now).reconnectAttempts = 0 ∧
        (handleOpen c now).state = ConnectionState.CONNECTED := by
  refine ⟨?_, fun c now => ⟨rfl, rfl⟩⟩
  simp only [List.map_cons, List.map_nil, computeReconnectDelay, List.cons.injEq, and_true]
  norm_num [min_def]

/-! ## Claim C7: minified projection truncation -/

/-- C7: in minified mode every projected side keeps at least 5 rows (when that
many exist) and at most `max 5 (10 − opposite side's row count)` rows, on both
the native and complementary sides; in non-minified mode no rows are
dropped. -/
theorem C7_projector_minified (book : FullOrderBook) (t : Dec) (ts : Int) :
    (min book.zero.askArray.length 5
        ≤ (Projector_project book t true ts).zero.asks.rows.length
      ∧ (Projector_project book t true ts).zero.asks.rows.length
        ≤ max 5 (10 - book.zero.bidArray.length))
    ∧ (min book.zero.bidArray.length 5
        ≤ (Projector_project book t true ts).zero.bids.rows.length
      ∧ (Projector_project book t true ts).zero.bids.rows.length
        ≤ max 5 (10 - book.zero.askArray.length))
    ∧ (min book.one.askArray.length 5
        ≤ (Projector_project book t true ts).one.asks.rows.length
      ∧ (Projector_project book t true ts).one.asks.rows.length
        ≤ max 5 (10 - book.one.bidArray.length))
    ∧ (min book.one.bidArray.length 5
        ≤ (Projector_project book t true ts).one.bids.rows.length
      ∧ (Projector_project book t true ts).one.bids.rows.length
        ≤ max 5 (10 - book.one.askArray.length))
    ∧ ((Projector_project book t false ts).zero.asks.rows
          = projectRows book.zero.askArray 0 0
      ∧ (Projector_project book t false ts).zero.bids.rows
          = projectRows book.zero.bidArray 0 0
      ∧ (Projector_project book t false ts).one.asks.rows
          = projectRows book.one.askArray 0 0
      ∧ (Projector_project book t false ts).one.bids.rows
          = projectRows book.one.bidArray 0 0) := by
  simp only [Projector_project, projectSide, if_pos, if_neg, List.length_take,
    projectRows_length]
  refine ⟨⟨?_, ?_⟩, ⟨?_, ?_⟩, ⟨?_, ?_⟩, ⟨?_, ?_⟩, rfl, rfl, rfl, rfl⟩ <;> omega

/-! ## Claim C3: stale-delta rule -/

/-- C3: in a processed batch, a price-change event whose timestamp is at most
the asset's last-applied timestamp (the stored value raised to the maximum
applied snapshot timestamp) leaves the asset's price map unchanged: a single
stale delta is a no-op, and a batch is equivalent to the same batch with every
stale delta removed. -/
theorem C3_stale_delta_discarded (m : Option PriceMap) (storedTs : Int)
    (snaps : List BookEvent) (deltas : List DeltaEvent) :
    (∀ (lastTs : Int) (e : DeltaEvent) (mm : Option PriceMap),
        e.ts ≤ lastTs → applyDeltas lastTs [e] mm = mm)
    ∧ processAssetGroup m storedTs snaps deltas
      = processAssetGroup m storedTs snaps
          (deltas.filter fun e => (applySnapshots snaps m storedTs).2 < e.ts) := by
  constructor
  · intro lastTs e mm h
    simp [applyDeltas, h]
  · have hgen : ∀ (lastTs : Int) (ds : List DeltaEvent) (mm : Option PriceMap),
        applyDeltas lastTs ds mm
          = applyDeltas lastTs (ds.filter fun e => lastTs < e.ts) mm := by
      intro lastTs ds
      induction ds with
      | nil => intro mm; rfl
      | cons e rest ih =>
          intro mm
          by_cases h : e.ts ≤ lastTs
          · rw [List.filter_cons, decide_eq_false (not_lt.2 h)]
            simp only [Bool.false_eq_true, if_false]
            rw [applyDeltas, if_pos h]
            exact ih mm
          · rw [List.filter_cons, decide_eq_true (lt_of_not_le h)]
            simp only [if_true]
            rw [applyDeltas, if_neg h, applyDeltas, if_neg h]
            exact ih _
    simp only [processAssetGroup]
    rw [hgen]

/-- Witness for C3 at a concrete input: a delta stamped 5 against a
last-applied timestamp of 5 is discarded. -/
theorem C3_witness :
    applyDeltas 5 [⟨5, [⟨⟨6, 1⟩, ⟨7, 0⟩, "BUY"⟩]⟩] (some emptyPriceMap)
      = some emptyPriceMap :=
  (C3_stale_delta_discarded none 0 [] []).1 5 _ _ (by decide)

/-! ## Claim C5: snapshot replacement discards prior state -/

/-- C5: applying snapshots S1 then S2 for an asset leaves exactly the map built
from S2's payload alone — `DeltaProcessor.snapshot` ignores all prior state and
the queue replaces the stored map with it; each side's lookup is the size of
the last level in S2's payload at that price. -/
theorem C5_snapshot_replacement (m : Option PriceMap) (storedTs : Int)
    (e1 e2 : BookEvent) :
    (processAssetGroup m storedTs [e1, e2] []).1 = some (DeltaProcessor_snapshot e2.data)
    ∧ (∀ q, mapGet (DeltaProcessor_snapshot e2.data).bids q
        = (lastMatch (fun l => l.price == q) e2.data.bids).map (·.size))
    ∧ (∀ q, mapGet (DeltaProcessor_snapshot e2.data).asks q
        = (lastMatch (fun l => l.price == q) e2.data.asks).map (·.size)) := by
  refine ⟨rfl, fun q => ?_, fun q => ?_⟩
  · rw [DeltaProcessor_snapshot]
    rw [mapGet_setFold (fun l : RawLevel => l.price) (fun l : RawLevel => l.size)]
    cases lastMatch (fun l : RawLevel => l.price == q) e2.data.bids <;> rfl
  · rw [DeltaProcessor_snapshot]
    rw [mapGet_setFold (fun l : RawLevel => l.price) (fun l : RawLevel => l.size)]
    cases lastMatch (fun l : RawLevel => l.price == q) e2.data.asks <;> rfl

theorem lastMatch_cons_some {β : Type} (p : β → Bool) (x : β) (xs : List β)
    (y : β) (h : lastMatch p xs = some y) : lastMatch p (x :: xs) = some y := by
  rw [lastMatch, h]

theorem lastMatch_cons_none {β : Type} (p : β → Bool) (x : β) (xs : List β)
    (h : lastMatch p xs = none) :
    lastMatch p (x :: xs) = if p x then some x else none := by
  rw [lastMatch, h]

/-! ## Claim C4: zero-size delta removal (last change wins) -/

/-- C4 counterexample: in the batch
[{price "0.5", size "0", side "BUY"}, {price "0.5", size "3", side "BUY"}]
the first change parses to size zero, yet the resulting map does have a bid
entry at 0.5 (the later change re-set it), contradicting the claim that every
zero-size change leaves no entry at its price. -/
theorem C4_counterexample :
    mapGet (DeltaProcessor_delta emptyPriceMap
        [⟨⟨5, 1⟩, ⟨0, 0⟩, "BUY"⟩, ⟨⟨5, 1⟩, ⟨3, 0⟩, "BUY"⟩]).bids ⟨5, 1⟩
      = some ⟨3, 0⟩
    ∧ parseDec (⟨0, 0⟩ : Dec) = 0
    ∧ ¬ mapGet (DeltaProcessor_delta emptyPriceMap
        [⟨⟨5, 1⟩, ⟨0, 0⟩, "BUY"⟩, ⟨⟨5, 1⟩, ⟨3, 0⟩, "BUY"⟩]).bids ⟨5, 1⟩ = none := by
  have hz : parseDec (⟨0, 0⟩ : Dec) = 0 := by norm_num [parseDec]
  have hnz : ¬ parseDec (⟨3, 0⟩ : Dec) = 0 := by norm_num [parseDec]
  have hb : isBuySide "BUY" = true := by decide
  have h : mapGet (DeltaProcessor_delta emptyPriceMap
      [⟨⟨5, 1⟩, ⟨0, 0⟩, "BUY"⟩, ⟨⟨5, 1⟩, ⟨3, 0⟩, "BUY"⟩]).bids ⟨5, 1⟩
      = some ⟨3, 0⟩ := by
    simp [DeltaProcessor_delta, applyChange, hz, hnz, hb, emptyPriceMap,
      mapDelete, mapSet, mapGet]
  exact ⟨h, hz, by rw [h]; simp⟩

/-- C4 amended: for each price and side, the LAST change in the batch
targeting that price on that side determines the result of
`DeltaProcessor.delta` — size parsing to zero leaves no entry, any other size
is stored; prices with no change on that side are untouched.  The targeted
side is the bid side exactly when the change's side is "BUY"
case-insensitively. -/
theorem C4_amended (current : PriceMap) (changes : List PriceChange) (p : Dec) :
    (mapGet (DeltaProcessor_delta current changes).bids p
      = match lastChangeAt changes p true with
        | none => mapGet current.bids p
        | some c => if parseDec c.size = 0 then none else some c.size)
    ∧ (mapGet (DeltaProcessor_delta current changes).asks p
      = match lastChangeAt changes p false with
        | none => mapGet current.asks p
        | some c => if parseDec c.size = 0 then none else some c.size) := by
  induction changes generalizing current with
  | nil => exact ⟨rfl, rfl⟩
  | cons c cs ih =>
      have hstep : DeltaProcessor_delta current (c :: cs)
          = DeltaProcessor_delta (applyChange current c) cs := rfl
      have hbids : mapGet (applyChange current c).bids p
          = if isBuySide c.side = true ∧ c.price = p then
              (if parseDec c.size = 0 then none else some c.size)
            else mapGet current.bids p := by
        rw [applyChange]
        by_cases hb : isBuySide c.side
        · by_cases hz : parseDec c.size = 0
          · by_cases hp : c.price = p
            · subst hp
              simp [hb, hz, mapGet_mapDelete_self]
            · simp [hb, hz, hp, mapGet_mapDelete_ne _ _ _ hp]
          · by_cases hp : c.price = p
            · subst hp
              simp [hb, hz, mapGet_mapSet_self]
            · simp [hb, hz, hp, mapGet_mapSet_ne _ _ _ _ hp]
        · by_cases hz : parseDec c.size = 0 <;> simp [hb, hz]
      have hasks : mapGet (applyChange current c).asks p
          = if isBuySide c.side = false ∧ c.price = p then
              (if parseDec c.size = 0 then none else some c.size)
            else mapGet current.asks p := by
        rw [applyChange]
        by_cases hb : isBuySide c.side
        · by_cases hz : parseDec c.size = 0 <;> simp [hb, hz]
        · by_cases hz : parseDec c.size = 0
          · by_cases hp : c.price = p
            · subst hp
              simp [hb, hz, mapGet_mapDelete_self]
            · simp [hb, hz, hp, mapGet_mapDelete_ne _ _ _ hp]
          · by_cases hp : c.price = p
            · subst hp
              simp [hb, hz, mapGet_mapSet_self]
            · simp [hb, hz, hp, mapGet_mapSet_ne _ _ _ _ hp]
      constructor
      · rw [hstep, (ih (applyChange current c)).1]
        cases hl : lastChangeAt cs p true with
        | some y =>
            have hc2 : lastChangeAt (c :: cs) p true = some y :=
              lastMatch_cons_some _ c cs y hl
            rw [hc2]
        | none =>
            have hc2 : lastChangeAt (c :: cs) p true
                = if c.price == p && isBuySide c.side == true then some c else none :=
              lastMatch_cons_none _ c cs hl
            rw [hc2]
            by_cases hcp : c.price = p
            · by_cases hcb : isBuySide c.side
              · simp [hbids, hcp, hcb]
              · simp [hbids, hcp, hcb]
            · simp [hbids, hcp]
      · rw [hstep, (ih (applyChange current c)).2]
        cases hl : lastChangeAt cs p false with
        | some y =>
            have hc2 : lastChangeAt (c :: cs) p false = some y :=
              lastMatch_cons_some _ c cs y hl
            rw [hc2]
        | none =>
            have hc2 : lastChangeAt (c :: cs) p false
                = if c.price == p && isBuySide c.side == false then some c else none :=
              lastMatch_cons_none _ c cs hl
            rw [hc2]
            by_cases hcp : c.price = p
            · by_cases hcb : isBuySide c.side
              · simp [hasks, hcp, hcb]
              · simp [hasks, hcp, hcb]
            · simp [hasks, hcp]

/-! ## Claim C9: snapshot query by token id -/

/-- C9: the snapshot query returns the native map's raw levels for the primary
token (asks for the buy side, bids otherwise), the derived complementary map's
levels for the secondary token, and fails with an error whenever no price map
exists — for an unknown token id as well as for a query made before any
snapshot has seeded the map. -/
theorem C9_snapshot_query (st : ManagerState) (tokenId : String) (side : Side) :
    (st.clobTokenIds.get? 0 = some tokenId →
      ∀ pm, mapGet st.priceMaps tokenId = some pm →
        getOrderBookSnapshotByTokenId st tokenId side
          = Except.ok (if side = Side.BUY then pm.asks else pm.bids))
    ∧ (st.clobTokenIds.get? 0 = some tokenId →
        mapGet st.priceMaps tokenId = none →
        getOrderBookSnapshotByTokenId st tokenId side
          = Except.error ("Price map not found for token id: " ++ tokenId))
    ∧ (st.clobTokenIds.get? 0 ≠ some tokenId →
        st.clobTokenIds.get? 1 = some tokenId →
        ∀ pm, mapGet st.priceMaps (toLowerStr (st.clobTokenIds.getD 0 "")) = some pm →
          getOrderBookSnapshotByTokenId st tokenId side
            = Except.ok (if side = Side.BUY then (getInvertedPriceMap pm 4).asks
                         else (getInvertedPriceMap pm 4).bids))
    ∧ (st.clobTokenIds.get? 0 ≠ some tokenId →
        st.clobTokenIds.get? 1 = some tokenId →
        mapGet st.priceMaps (toLowerStr (st.clobTokenIds.getD 0 "")) = none →
        getOrderBookSnapshotByTokenId st tokenId side
          = Except.error ("Price map not found for token id: " ++ tokenId))
    ∧ (st.clobTokenIds.get? 0 ≠ some tokenId →
        st.clobTokenIds.get? 1 ≠ some tokenId →
        getOrderBookSnapshotByTokenId st tokenId side
          = Except.error ("Price map not found for token id: " ++ tokenId)) := by
  refine ⟨?_, ?_, ?_, ?_, ?_⟩
  · intro h0 pm hpm
    unfold getOrderBookSnapshotByTokenId
    rw [if_pos h0, hpm]
  · intro h0 hpm
    unfold getOrderBookSnapshotByTokenId
    rw [if_pos h0, hpm]
  · intro h0 h1 pm hpm
    unfold getOrderBookSnapshotByTokenId
    rw [if_neg h0, if_pos h1, hpm]
    rfl
  · intro h0 h1 hpm
    unfold getOrderBookSnapshotByTokenId
    rw [if_neg h0, if_pos h1, hpm]
    rfl
  · intro h0 h1
    unfold getOrderBookSnapshotByTokenId
    rw [if_neg h0, if_neg h1]

/-- Witness for C9 at a concrete state: the primary token with a seeded map
returns its ask levels for the buy side. -/
theorem C9_witness :
    getOrderBookSnapshotByTokenId
        ⟨["tok0", "tok1"], [("tok0", ⟨[(⟨6, 1⟩, ⟨2, 0⟩)], [(⟨7, 1⟩, ⟨4, 0⟩)]⟩)]⟩
        "tok0" Side.BUY
      = Except.ok [(⟨7, 1⟩, ⟨4, 0⟩)] := by
  have h := (C9_snapshot_query
      ⟨["tok0", "tok1"], [("tok0", ⟨[(⟨6, 1⟩, ⟨2, 0⟩)], [(⟨7, 1⟩, ⟨4, 0⟩)]⟩)]⟩
      "tok0" Side.BUY).1 rfl ⟨[(⟨6, 1⟩, ⟨2, 0⟩)], [(⟨7, 1⟩, ⟨4, 0⟩)]⟩ rfl
  simpa using h

/-! ## Claim C6: quorum rule and median aggregation -/

theorem stableSortRat_eq_insertionSort (l : List ℚ) :
    stableSort (fun a b => a < b) l = l.insertionSort (· ≤ ·) := by
  have hperm : List.Perm (stableSort (fun a b => a < b) l)
      (l.insertionSort (· ≤ ·)) :=
    (stableSort_perm _ l).trans (l.perm_insertionSort (· ≤ ·)).symm
  have hs1 : (stableSort (fun a b => a < b) l).Sorted (· ≤ ·) := by
    have hp := stableSort_pairwise (fun a b : ℚ => a < b)
      (fun a b h => decide_eq_false (lt_asymm (of_decide_eq_true h)))
      (fun a b c hba hcb => decide_eq_false (not_lt.2 (le_trans
        (not_lt.1 (of_decide_eq_false hba)) (not_lt.1 (of_decide_eq_false hcb)))))
      l
    exact hp.imp fun h => not_lt.1 (of_decide_eq_false h)
  exact List.eq_of_perm_of_sorted hperm hs1 (List.sorted_insertionSort _ l)

theorem computeMedian_eq_medianSpec (l : List ℚ) : computeMedian l = medianSpec l := by
  unfold computeMedian medianSpec
  rw [stableSortRat_eq_insertionSort]

/-- C6: `runAggregation` changes nothing (neither price nor timestamp) below
the 3-source quorum; at quorum the computed value is the arithmetic median of
the active USD prices (even counts average the two middle values — [100, 101,
99, 105] gives 100.5 and [100, 101, 99] gives 100); and without a valid FX
rate only USD-quoted sources are active. -/
theorem C6_quorum_and_median :
    (∀ (st : AggState) (now : Int), (getActiveSources st).length < 3 →
        runAggregation st now = st)
    ∧ (∀ (st : AggState) (_now : Int), 3 ≤ (getActiveSources st).length →
        computeMedian (getActiveSources st) = medianSpec (getActiveSources st))
    ∧ computeMedian [100, 101, 99, 105] = 201 / 2
    ∧ computeMedian [100, 101, 99] = 100
    ∧ runAggregation
        ⟨[("A", 100), ("B", 101), ("C", 99), ("D", 105)],
         [("A", SourceType.USD), ("B", SourceType.USD), ("C", SourceType.USD),
          ("D", SourceType.USD)], 0, false, 0, 0⟩ 7
      = ⟨[("A", 100), ("B", 101), ("C", 99), ("D", 105)],
         [("A", SourceType.USD), ("B", SourceType.USD), ("C", SourceType.USD),
          ("D", SourceType.USD)], 0, false, 201 / 2, 7⟩
    ∧ (∀ (st : AggState), st.hasValidUsdtRate = false →
        getActiveSources st = st.sourcePrices.filterMap (fun (e : String × ℚ) =>
          if e.2 ≤ 0 then none
          else match mapGet st.sourceTypes e.1 with
            | some SourceType.USD => some e.2
            | _ => none)) := by
  refine ⟨?_, ?_, ?_, ?_, ?_, ?_⟩
  · intro st now h
    unfold runAggregation
    rw [if_pos h]
  · intro st now _
    exact computeMedian_eq_medianSpec _
  · norm_num [computeMedian, stableSort, insertBefore, List.getD]
  · norm_num [computeMedian, stableSort, insertBefore, List.getD]
  · have habs : |(201 : ℚ) / 2| = 201 / 2 := by
      rw [abs_of_pos]
      norm_num
    norm_num [runAggregation, getActiveSources, mapGet, computeMedian,
      stableSort, insertBefore, List.getD, List.filterMap_cons, List.filterMap_nil,
      habs]
  · intro st h
    unfold getActiveSources
    have hfun : ∀ (e : String × ℚ),
        (if e.2 ≤ 0 then (none : Option ℚ)
         else match mapGet st.sourceTypes e.1 with
            | some SourceType.USD => some e.2
            | some SourceType.USDT =>
                if st.hasValidUsdtRate then some (e.2 * st.usdtRate) else none
            | none => none)
        = (if e.2 ≤ 0 then none
           else match mapGet st.sourceTypes e.1 with
            | some SourceType.USD => some e.2
            | _ => none) := by
      intro e
      by_cases he : e.2 ≤ 0
      · simp [he]
      · cases hm : mapGet st.sourceTypes e.1 with
        | none => simp [he, hm]
        | some ty =>
            cases ty with
            | USD => simp [he, hm]
            | USDT => simp [he, hm, h]
    simp only [hfun]

/-- Witness for C6 at a concrete input: with only two active sources the state
is returned unchanged, whatever the spread. -/
theorem C6_witness :
    runAggregation
        ⟨[("A", 100), ("B", 200)],
         [("A", SourceType.USD), ("B", SourceType.USD)], 0, false, 0, 0⟩ 9
      = ⟨[("A", 100), ("B", 200)],
         [("A", SourceType.USD), ("B", SourceType.USD)], 0, false, 0, 0⟩ :=
  C6_quorum_and_median.1 _ 9 (by
    norm_num [getActiveSources, mapGet, List.filterMap_cons, List.filterMap_nil])

/-! ## Claim C10: the query-side inverted price map -/

theorem parseDec_addDec (a b : Dec) : parseDec (addDec a b) = parseDec a + parseDec b := by
  unfold addDec
  rw [parseDec_normDec]
  have hne : ((10 : ℚ) ^ (max a.exp b.exp)) ≠ 0 := pow_ne_zero _ (by norm_num)
  have hnea : ((10 : ℚ) ^ a.exp) ≠ 0 := pow_ne_zero _ (by norm_num)
  have hneb : ((10 : ℚ) ^ b.exp) ≠ 0 := pow_ne_zero _ (by norm_num)
  have ha : (10 : ℚ) ^ (max a.exp b.exp - a.exp)
      = (10 : ℚ) ^ (max a.exp b.exp) / (10 : ℚ) ^ a.exp := by
    rw [eq_div_iff hnea, ← pow_add, Nat.sub_add_cancel (Nat.le_max_left _ _)]
  have hb : (10 : ℚ) ^ (max a.exp b.exp - b.exp)
      = (10 : ℚ) ^ (max a.exp b.exp) / (10 : ℚ) ^ b.exp := by
    rw [eq_div_iff hneb, ← pow_add, Nat.sub_add_cancel (Nat.le_max_right _ _)]
  unfold parseDec
  push_cast
  rw [ha, hb]
  field_simp
  ring

theorem invertStep_fold_mapGet (precision : Nat) (entries : List (Dec × Dec))
    (acc : List (Dec × Dec)) (q : Dec) :
    (mapGet (entries.foldl (invertStep precision) acc) q).map parseDec
      = match mapGet acc q, contributingEntries entries precision q with
        | none, [] => none
        | none, cs => some ((cs.map fun e => parseDec e.2).sum)
        | some v, _cs => some (parseDec v + ((contributingEntries entries precision q).map
            fun e => parseDec e.2).sum) := by
  induction entries generalizing acc with
  | nil =>
      cases h : mapGet acc q with
      | none => simp [contributingEntries, h]
      | some v => simp [contributingEntries, h]
  | cons e rest ih =>
      rw [List.foldl_cons]
      by_cases hr : (1 : ℚ) - parseDec e.1 < (1 : ℚ) / (10 : ℚ) ^ precision
          ∨ 1 - (1 : ℚ) / (10 : ℚ) ^ precision < 1 - parseDec e.1
      · have hstep : invertStep precision acc e = acc := by
          unfold invertStep
          rw [if_pos hr]
        have hcontrib : contributingEntries (e :: rest) precision q
            = contributingEntries rest precision q := by
          unfold contributingEntries
          rw [List.filter_cons]
          simp only [if_pos hr, Bool.false_eq_true, if_false]
        rw [hstep, ih, hcontrib]
      · have hkey : invertStep precision acc e
            = match mapGet acc (toFixed precision (1 - parseDec e.1)) with
              | some existingSize => mapSet acc (toFixed precision (1 - parseDec e.1))
                  (addDec existingSize e.2)
              | none => mapSet acc (toFixed precision (1 - parseDec e.1)) e.2 := by
          unfold invertStep
          rw [if_neg hr]
        by_cases hq : toFixed precision (1 - parseDec e.1) = q
        · have hcontrib : contributingEntries (e :: rest) precision q
              = e :: contributingEntries rest precision q := by
            unfold contributingEntries
            rw [List.filter_cons]
            simp only [if_neg hr, hq, beq_self_eq_true, if_true]
          rw [hcontrib]
          cases hacc : mapGet acc q with
          | some v =>
              have hacc2 : mapGet acc (toFixed precision (1 - parseDec e.1)) = some v := by
                rw [hq, hacc]
              rw [hkey, hacc2]
              have hget : mapGet (mapSet acc (toFixed precision (1 - parseDec e.1))
                  (addDec v e.2)) q = some (addDec v e.2) := by
                rw [hq]
                exact mapGet_mapSet_self _ _ _
              rw [ih, hget]
              simp [parseDec_addDec]
              ring
          | none =>
              have hacc2 : mapGet acc (toFixed precision (1 - parseDec e.1)) = none := by
                rw [hq, hacc]
              rw [hkey, hacc2]
              have hget : mapGet (mapSet acc (toFixed precision (1 - parseDec e.1)) e.2) q
                  = some e.2 := by
                rw [hq]
                exact mapGet_mapSet_self _ _ _
              rw [ih, hget]
              cases hc : contributingEntries rest precision q <;> simp [hc]
        · have hcontrib : contributingEntries (e :: rest) precision q
              = contributingEntries rest precision q := by
            unfold contributingEntries
            rw [List.filter_cons]
            have hbeq : (toFixed precision (1 - parseDec e.1) == q) = false :=
              beq_eq_false_iff_ne.2 hq
            simp only [if_neg hr, hbeq, Bool.false_eq_true, if_false]
          rw [hcontrib]
          cases hm : mapGet acc (toFixed precision (1 - parseDec e.1)) with
          | some v =>
              have hget : mapGet (mapSet acc (toFixed precision (1 - parseDec e.1))
                  (addDec v e.2)) q = mapGet acc q :=
                mapGet_mapSet_ne _ _ _ _ hq
              rw [hkey, hm, ih, hget]
          | none =>
              have hget : mapGet (mapSet acc (toFixed precision (1 - parseDec e.1)) e.2) q
                  = mapGet acc q :=
                mapGet_mapSet_ne _ _ _ _ hq
              rw [hkey, hm, ih, hget]

/-- C10: the complementary map served to the query API is built at fixed
precision 4: a YES ask at price p yields a NO bid keyed `toFixed 4 (1 − p)`
provided `1 − p` lies inside `[10^-4, 1 − 10^-4]` (out-of-range levels are
dropped, not clamped), colliding keys merge by summing sizes, and YES bids
symmetrically yield NO asks. -/
theorem C10_inverted_price_map (yes : PriceMap) (q : Dec) :
    ((mapGet (getInvertedPriceMap yes 4).bids q).map parseDec
      = match contributingEntries yes.asks 4 q with
        | [] => none
        | cs => some ((cs.map fun e => parseDec e.2).sum))
    ∧ ((mapGet (getInvertedPriceMap yes 4).asks q).map parseDec
      = match contributingEntries yes.bids 4 q with
        | [] => none
        | cs => some ((cs.map fun e => parseDec e.2).sum)) := by
  constructor
  · have h := invertStep_fold_mapGet 4 yes.asks [] q
    rw [show (getInvertedPriceMap yes 4).bids = yes.asks.foldl (invertStep 4) [] from rfl, h]
    cases hc : contributingEntries yes.asks 4 q <;> simp [mapGet]
  · have h := invertStep_fold_mapGet 4 yes.bids [] q
    rw [show (getInvertedPriceMap yes 4).asks = yes.bids.foldl (invertStep 4) [] from rfl, h]
    cases hc : contributingEntries yes.bids 4 q <;> simp [mapGet]

/-! ## Claim C1: complementary-side price inversion -/

theorem mem_parseSideAux (E : List (Dec × Dec)) (cs cv : ℚ) (l : ProcessedLevel)
    (h : l ∈ parseSideAux E cs cv) : ∃ en ∈ E, l.price = en.1 ∧ l.size = parseDec en.2 := by
  induction E generalizing cs cv with
  | nil => cases h
  | cons en rest ih =>
      rw [parseSideAux] at h
      rcases List.mem_cons.1 h with rfl | h2
      · exact ⟨en, List.mem_cons_self _ _, rfl, rfl⟩
      · obtain ⟨en2, hmem, hp, hs⟩ := ih _ _ h2
        exact ⟨en2, List.mem_cons_of_mem _ hmem, hp, hs⟩

theorem mem_recomputeCumulative (xs : List ProcessedLevel) (cv cs : ℚ)
    (l : ProcessedLevel) (h : l ∈ recomputeCumulative xs cv cs) :
    ∃ x ∈ xs, l.price = x.price ∧ l.size = x.size := by
  induction xs generalizing cv cs with
  | nil => cases h
  | cons x rest ih =>
      rw [recomputeCumulative] at h
      rcases List.mem_cons.1 h with rfl | h2
      · exact ⟨x, List.mem_cons_self _ _, rfl, rfl⟩
      · obtain ⟨x2, hmem, hp, hs⟩ := ih _ _ h2
        exact ⟨x2, List.mem_cons_of_mem _ hmem, hp, hs⟩

theorem mem_accumulateLevels (xs : List ProcessedLevel) (cs cv : ℚ)
    (l : ProcessedLevel) (h : l ∈ accumulateLevels xs cs cv) :
    ∃ x ∈ xs, l.price = x.price ∧ l.size = x.size ∧ l.value = x.value := by
  induction xs generalizing cs cv with
  | nil => cases h
  | cons x rest ih =>
      rw [accumulateLevels] at h
      rcases List.mem_cons.1 h with rfl | h2
      · exact ⟨x, List.mem_cons_self _ _, rfl, rfl, rfl⟩
      · obtain ⟨x2, hmem, hp, hs, hv⟩ := ih _ _ h2
        exact ⟨x2, List.mem_cons_of_mem _ hmem, hp, hs, hv⟩

theorem mapGet_mem {κ α : Type} [DecidableEq κ] (m : List (κ × α)) (k : κ) (v : α)
    (h : mapGet m k = some v) : (k, v) ∈ m := by
  induction m with
  | nil => cases h
  | cons e rest ih =>
      by_cases he : e.1 = k
      · rw [mapGet, if_pos he] at h
        injection h with h2
        have hev : e = (k, v) := by
          obtain ⟨e1, e2⟩ := e
          simp only at he h2
          rw [he, h2]
        rw [← hev]
        exact List.mem_cons_self _ _
      · rw [mapGet, if_neg he] at h
        exact List.mem_cons_of_mem _ (ih h)

theorem mem_mapSet {κ α : Type} [DecidableEq κ] (m : List (κ × α)) (k : κ) (v : α)
    (x : κ × α) (h : x ∈ mapSet m k v) : x = (k, v) ∨ x ∈ m := by
  induction m with
  | nil =>
      rw [mapSet] at h
      rcases List.mem_singleton.1 h with rfl
      exact Or.inl rfl
  | cons e rest ih =>
      rw [mapSet] at h
      by_cases he : e.1 = k
      · rw [if_pos he] at h
        rcases List.mem_cons.1 h with rfl | h2
        · exact Or.inl rfl
        · exact Or.inr (List.mem_cons_of_mem _ h2)
      · rw [if_neg he] at h
        rcases List.mem_cons.1 h with rfl | h2
        · exact Or.inr (List.mem_cons_self _ _)
        · rcases ih h2 with h3 | h3
          · exact Or.inl h3
          · exact Or.inr (List.mem_cons_of_mem _ h3)

theorem priceList_recomputeCumulative (xs : List ProcessedLevel) (cv cs : ℚ) :
    (recomputeCumulative xs cv cs).map (fun l => l.price) = xs.map (fun l => l.price) := by
  induction xs generalizing cv cs with
  | nil => rfl
  | cons x rest ih => simp [recomputeCumulative, ih]

theorem priceList_accumulateLevels (xs : List ProcessedLevel) (cs cv : ℚ) :
    (accumulateLevels xs cs cv).map (fun l => l.price) = xs.map (fun l => l.price) := by
  induction xs generalizing cs cv with
  | nil => rfl
  | cons x rest ih => simp [accumulateLevels, ih]

theorem levelCmp_true_eq (a b : ProcessedLevel) :
    levelCmp true a b = decide (parseDec a.price < parseDec b.price) := rfl

theorem levelCmp_false_eq (a b : ProcessedLevel) :
    levelCmp false a b = decide (parseDec b.price < parseDec a.price) := rfl

theorem pairwise_levelCmp_stableSort (asc : Bool) (xs : List ProcessedLevel) :
    (stableSort (levelCmp asc) xs).Pairwise
      (fun a b => (levelCmp asc b a) = false) := by
  apply stableSort_pairwise
  · intro a b h
    cases asc with
    | true =>
        rw [levelCmp_true_eq] at h ⊢
        exact decide_eq_false (lt_asymm (of_decide_eq_true h))
    | false =>
        rw [levelCmp_false_eq] at h ⊢
        exact decide_eq_false (lt_asymm (of_decide_eq_true h))
  · intro a b c hba hcb
    cases asc with
    | true =>
        rw [levelCmp_true_eq] at hba hcb ⊢
        exact decide_eq_false (not_lt.2 (le_trans
          (not_lt.1 (of_decide_eq_false hba)) (not_lt.1 (of_decide_eq_false hcb))))
    | false =>
        rw [levelCmp_false_eq] at hba hcb ⊢
        exact decide_eq_false (not_lt.2 (le_trans
          (not_lt.1 (of_decide_eq_false hcb)) (not_lt.1 (of_decide_eq_false hba))))

theorem pairwise_price_desc_stableSort (xs : List ProcessedLevel) :
    (stableSort (levelCmp false) xs).Pairwise
      (fun a b => parseDec b.price ≤ parseDec a.price) := by
  refine (pairwise_levelCmp_stableSort false xs).imp ?_
  intro a b h
  rw [levelCmp_false_eq] at h
  exact not_lt.1 (of_decide_eq_false h)

theorem pairwise_price_asc_stableSort (xs : List ProcessedLevel) :
    (stableSort (levelCmp true) xs).Pairwise
      (fun a b => parseDec a.price ≤ parseDec b.price) := by
  refine (pairwise_levelCmp_stableSort true xs).imp ?_
  intro a b h
  rw [levelCmp_true_eq] at h
  exact not_lt.1 (of_decide_eq_false h)

theorem pairwise_price_recomputeCumulative (xs : List ProcessedLevel) (cv cs : ℚ)
    (R : ℚ → ℚ → Prop) (h : xs.Pairwise (fun a b => R (parseDec a.price) (parseDec b.price))) :
    (recomputeCumulative xs cv cs).Pairwise
      (fun a b => R (parseDec a.price) (parseDec b.price)) := by
  induction xs generalizing cv cs with
  | nil => exact List.Pairwise.nil
  | cons x rest ih =>
      rw [List.pairwise_cons] at h
      rw [recomputeCumulative, List.pairwise_cons]
      refine ⟨fun y hy => ?_, ih _ _ h.2⟩
      obtain ⟨x2, hmem, hp, _⟩ := mem_recomputeCumulative _ _ _ _ hy
      rw [hp]
      exact h.1 x2 hmem

theorem pairwise_price_accumulateLevels (xs : List ProcessedLevel) (cs cv : ℚ)
    (R : ℚ → ℚ → Prop) (h : xs.Pairwise (fun a b => R (parseDec a.price) (parseDec b.price))) :
    (accumulateLevels xs cs cv).Pairwise
      (fun a b => R (parseDec a.price) (parseDec b.price)) := by
  induction xs generalizing cs cv with
  | nil => exact List.Pairwise.nil
  | cons x rest ih =>
      rw [List.pairwise_cons] at h
      rw [accumulateLevels, List.pairwise_cons]
      refine ⟨fun y hy => ?_, ih _ _ h.2⟩
      obtain ⟨x2, hmem, hp, _, _⟩ := mem_accumulateLevels _ _ _ _ hy
      rw [hp]
      exact h.1 x2 hmem

theorem mem_BookBuilder_invertSide (levels : List ProcessedLevel) (targetAsk : Bool)
    (k : Nat) (l : ProcessedLevel) (h : l ∈ BookBuilder_invertSide levels targetAsk k) :
    ∃ src ∈ levels, l.price = BookBuilder_invertPrice src.price k := by
  unfold BookBuilder_invertSide at h
  obtain ⟨x, hx, hp, _⟩ := mem_recomputeCumulative _ _ _ _ h
  rw [mem_stableSort] at hx
  obtain ⟨src, hsrc, rfl⟩ := List.mem_map.1 hx
  exact ⟨src, hsrc, hp⟩

theorem invertBucketsStep_spec (sp tp : Nat) (mn : ℚ) (bs : List (Dec × Bucket))
    (x : ProcessedLevel) (e : Dec × Bucket)
    (h : e ∈ invertBucketsStep sp tp mn bs x) :
    e ∈ bs
    ∨ e.2.price = (Aggregator_invertPrice x.price sp (some mn)).2
    ∨ ∃ b, mapGet bs (Aggregator_invertPrice x.price sp (some mn)).2 = some b
        ∧ e.2.price = b.price := by
  unfold invertBucketsStep at h
  cases hm : mapGet bs (Aggregator_invertPrice x.price sp (some mn)).2 with
  | some b =>
      rw [hm] at h
      rcases mem_mapSet _ _ _ _ h with rfl | h2
      · exact Or.inr (Or.inr ⟨b, rfl, rfl⟩)
      · exact Or.inl h2
  | none =>
      rw [hm] at h
      rcases mem_mapSet _ _ _ _ h with rfl | h2
      · exact Or.inr (Or.inl rfl)
      · exact Or.inl h2

theorem invertBuckets_fold_price (sp tp : Nat) (mn : ℚ) (all : List ProcessedLevel) :
    ∀ (sub : List ProcessedLevel), (∀ x ∈ sub, x ∈ all) →
    ∀ (acc : List (Dec × Bucket)),
      (∀ e ∈ acc, ∃ src ∈ all,
        e.2.price = (Aggregator_invertPrice src.price sp (some mn)).2) →
    ∀ e ∈ sub.foldl (invertBucketsStep sp tp mn) acc,
      ∃ src ∈ all, e.2.price = (Aggregator_invertPrice src.price sp (some mn)).2 := by
  intro sub
  induction sub with
  | nil => exact fun _ acc hacc e he => hacc e he
  | cons x rest ih =>
      intro hsub acc hacc
      rw [List.foldl_cons]
      apply ih (fun y hy => hsub y (List.mem_cons_of_mem _ hy))
      intro e he
      rcases invertBucketsStep_spec sp tp mn acc x e he with h2 | h2 | ⟨b, hm, hb⟩
      · exact hacc e h2
      · exact ⟨x, hsub x (List.mem_cons_self _ _), h2⟩
      · obtain ⟨src, hsrc, hps⟩ := hacc _ (mapGet_mem _ _ _ hm)
        exact ⟨src, hsrc, hb.trans hps⟩

theorem mem_Aggregator_invertSide (levels : List ProcessedLevel) (sortAsc : Bool)
    (sp tp : Nat) (l : ProcessedLevel) (h : l ∈ Aggregator_invertSide levels sortAsc sp tp) :
    ∃ src ∈ levels,
      l.price = (Aggregator_invertPrice src.price sp (some ((1 : ℚ) / (10 : ℚ) ^ sp))).2 := by
  unfold Aggregator_invertSide at h
  obtain ⟨x, hx, hp, _, _⟩ := mem_accumulateLevels _ _ _ _ h
  rw [mem_stableSort] at hx
  obtain ⟨en, hen, rfl⟩ := List.mem_map.1 hx
  obtain ⟨src, hsrc, hps⟩ := invertBuckets_fold_price sp tp _ levels levels
    (fun x hx2 => hx2) [] (fun e he => absurd he (List.not_mem_nil e)) en hen
  exact ⟨src, hsrc, hp.trans (by rw [bucketToLevel, hps])⟩

/-- C1 counterexample: for the price map {bids: {"0.999": "10"}} at tick size
0.01, `BookBuilder.build` puts the complementary ask at "0.00"
(`(1 − 0.999).toFixed(2)` with only a floor at 0), while the claimed formula —
1 − p clamped to [tick, 1 − tick] and formatted — gives "0.01"; the builder
performs no such clamping. -/
theorem C1_counterexample :
    ((BookBuilder_build ⟨[(⟨999, 3⟩, ⟨10, 0⟩)], []⟩ ⟨1, 2⟩).one.askArray.map
        (fun l => l.price)) = [⟨0, 2⟩]
    ∧ specClaimedInvert ⟨1, 2⟩ ⟨999, 3⟩ = ⟨1, 2⟩
    ∧ (⟨0, 2⟩ : Dec) ≠ (⟨1, 2⟩ : Dec) := by
  have hnorm : normDec ⟨1, 2⟩ = ⟨1, 2⟩ := by
    rw [normDec]
    norm_num
  have hprec : getPrecisionFromTickSize ⟨1, 2⟩ = 2 := by
    rw [getPrecisionFromTickSize, if_neg, hnorm]
    rw [parseDec]
    norm_num
  have hip : BookBuilder_invertPrice ⟨999, 3⟩ 2 = ⟨0, 2⟩ := by
    rw [BookBuilder_invertPrice, toFixed]
    rw [show max (1 - parseDec ⟨999, 3⟩) 0 = 1/1000 by
      rw [parseDec]; norm_num [max_def]]
    norm_num [round_eq]
  refine ⟨?_, ?_, by decide⟩
  · rw [BookBuilder_build]
    simp only [hprec]
    simp [parseSide, parseSideAux, BookBuilder_invertSide, stableSort, insertBefore,
      recomputeCumulative, hip]
  · rw [specClaimedInvert]
    simp only [hprec]
    rw [show min (1 - parseDec ⟨1, 2⟩) (max (parseDec ⟨1, 2⟩) (1 - parseDec ⟨999, 3⟩))
        = 1/100 by rw [parseDec, parseDec]; norm_num [max_def, min_def]]
    rw [toFixed]
    norm_num [round_eq]

/-- C1 amended: complementary sides are derived by inversion — complementary
bids from the native asks (sorted descending) and complementary asks from the
native bids (sorted ascending) — but the two components clamp differently:
`BookBuilder._invertPrice` computes `1 − p` floored at 0 and formatted to the
tick precision with NO clamping to [tick, 1 − tick], while
`Aggregator._invertPrice` clamps `1 − p` to
`[10^-precision, 1 − 10^-precision]` before formatting. -/
theorem C1_amended_inversion (m : PriceMap) (t : Dec) :
    (∀ l ∈ (BookBuilder_build m t).one.bidArray,
        ∃ ps ∈ m.asks, l.price = BookBuilder_invertPrice ps.1 (getPrecisionFromTickSize t))
    ∧ (∀ l ∈ (BookBuilder_build m t).one.askArray,
        ∃ ps ∈ m.bids, l.price = BookBuilder_invertPrice ps.1 (getPrecisionFromTickSize t))
    ∧ ((BookBuilder_build m t).one.bidArray).Pairwise
        (fun a b => parseDec b.price ≤ parseDec a.price)
    ∧ ((BookBuilder_build m t).one.askArray).Pairwise
        (fun a b => parseDec a.price ≤ parseDec b.price)
    ∧ (∀ p : Dec, ∀ k : Nat,
        BookBuilder_invertPrice p k = toFixed k (max (1 - parseDec p) 0))
    ∧ (∀ (book : FullOrderBook) (tgt mkt : Dec),
        (Aggregator_aggregate book tgt mkt).one.bidArray
          = Aggregator_invertSide (aggregateSide book.zero.askArray true tgt false)
              false (getPrecisionFromTickSize tgt) (getPrecisionFromTickSize mkt)
        ∧ (Aggregator_aggregate book tgt mkt).one.askArray
          = Aggregator_invertSide (aggregateSide book.zero.bidArray false tgt true)
              true (getPrecisionFromTickSize tgt) (getPrecisionFromTickSize mkt)
        ∧ ((Aggregator_aggregate book tgt mkt).one.bidArray).Pairwise
            (fun a b => parseDec b.price ≤ parseDec a.price)
        ∧ ((Aggregator_aggregate book tgt mkt).one.askArray).Pairwise
            (fun a b => parseDec a.price ≤ parseDec b.price))
    ∧ (∀ (levels : List ProcessedLevel) (sortAsc : Bool) (sp tp : Nat),
        ∀ l ∈ Aggregator_invertSide levels sortAsc sp tp,
          ∃ src ∈ levels, l.price = (Aggregator_invertPrice src.price sp
            (some ((1 : ℚ) / (10 : ℚ) ^ sp))).2)
    ∧ (∀ (p : Dec) (sp : Nat), 1 ≤ sp →
        (1 : ℚ) / (10 : ℚ) ^ sp
            ≤ (Aggregator_invertPrice p sp (some ((1 : ℚ) / (10 : ℚ) ^ sp))).1
        ∧ (Aggregator_invertPrice p sp (some ((1 : ℚ) / (10 : ℚ) ^ sp))).1
            ≤ 1 - (1 : ℚ) / (10 : ℚ) ^ sp
        ∧ (Aggregator_invertPrice p sp (some ((1 : ℚ) / (10 : ℚ) ^ sp))).2
            = toFixed sp (Aggregator_invertPrice p sp
                (some ((1 : ℚ) / (10 : ℚ) ^ sp))).1) := by
  refine ⟨?_, ?_, ?_, ?_, fun p k => rfl, ?_, ?_, ?_⟩
  · intro l hl
    obtain ⟨src, hsrc, hp⟩ := mem_BookBuilder_invertSide _ _ _ _ hl
    obtain ⟨en, hen, hp2, _⟩ := mem_parseSideAux _ _ _ _ hsrc
    rw [mem_stableSort] at hen
    exact ⟨en, hen, by rw [hp, hp2]⟩
  · intro l hl
    obtain ⟨src, hsrc, hp⟩ := mem_BookBuilder_invertSide _ _ _ _ hl
    obtain ⟨en, hen, hp2, _⟩ := mem_parseSideAux _ _ _ _ hsrc
    rw [mem_stableSort] at hen
    exact ⟨en, hen, by rw [hp, hp2]⟩
  · exact pairwise_price_recomputeCumulative _ _ _ (fun x y => y ≤ x)
      (pairwise_price_desc_stableSort _)
  · exact pairwise_price_recomputeCumulative _ _ _ (fun x y => x ≤ y)
      (pairwise_price_asc_stableSort _)
  · intro book tgt mkt
    refine ⟨rfl, rfl, ?_, ?_⟩
    · exact pairwise_price_accumulateLevels _ _ _ (fun x y => y ≤ x)
        (pairwise_price_desc_stableSort _)
    · exact pairwise_price_accumulateLevels _ _ _ (fun x y => x ≤ y)
        (pairwise_price_asc_stableSort _)
  · intro levels sortAsc sp tp l hl
    exact mem_Aggregator_invertSide levels sortAsc sp tp l hl
  · intro p sp hsp
    have h10 : (0 : ℚ) < (10 : ℚ) ^ sp := by positivity
    have hmn : (1 : ℚ) / (10 : ℚ) ^ sp ≤ 1 / 10 := by
      apply div_le_div_of_nonneg_left (by norm_num) (by norm_num)
      calc (10 : ℚ) = (10 : ℚ) ^ 1 := (pow_one _).symm
      _ ≤ (10 : ℚ) ^ sp := pow_le_pow_right₀ (by norm_num) hsp
    have hhalf : (1 : ℚ) / (10 : ℚ) ^ sp ≤ 1 - (1 : ℚ) / (10 : ℚ) ^ sp := by
      nlinarith
    refine ⟨?_, ?_, rfl⟩
    · rw [Aggregator_invertPrice]
      simp only [Option.getD]
      exact le_min hhalf (le_max_left _ _)
    · rw [Aggregator_invertPrice]
      simp only [Option.getD]
      exact min_le_left _ _

/-- Witness for C1's amended theorem at a concrete input: at source precision
2 the aggregator's inverted price of "0.5" is clamped inside [0.01, 0.99]. -/
theorem C1_amended_witness :
    (1 : ℚ) / (10 : ℚ) ^ 2
        ≤ (Aggregator_invertPrice ⟨5, 1⟩ 2 (some ((1 : ℚ) / (10 : ℚ) ^ 2))).1
    ∧ (Aggregator_invertPrice ⟨5, 1⟩ 2 (some ((1 : ℚ) / (10 : ℚ) ^ 2))).1
        ≤ 1 - (1 : ℚ) / (10 : ℚ) ^ 2
    ∧ (Aggregator_invertPrice ⟨5, 1⟩ 2 (some ((1 : ℚ) / (10 : ℚ) ^ 2))).2
        = toFixed 2 (Aggregator_invertPrice ⟨5, 1⟩ 2 (some ((1 : ℚ) / (10 : ℚ) ^ 2))).1 :=
  (C1_amended_inversion emptyPriceMap ⟨1, 2⟩).2.2.2.2.2.2.2 ⟨5, 1⟩ 2 (by norm_num)

/-! ## Claim C2: aggregation at the native tick size -/

theorem roundTo_eq_self (k : Nat) (q : ℚ) (n : ℤ) (h : q * (10 : ℚ) ^ k = (n : ℚ)) :
    roundTo k q = q := by
  rw [roundTo, h, round_intCast]
  field_simp at h ⊢
  linarith [h]

theorem toFixed_eq_mk (k : Nat) (q : ℚ) (n : ℤ) (h : q * (10 : ℚ) ^ k = (n : ℚ)) :
    toFixed k q = ⟨n, k⟩ := by
  rw [toFixed, h, round_intCast]

theorem parseDec_toFixed_exact (k : Nat) (q : ℚ) (n : ℤ)
    (h : q * (10 : ℚ) ^ k = (n : ℚ)) : parseDec (toFixed k q) = q := by
  rw [parseDec_toFixed]
  exact roundTo_eq_self k q n h

theorem roundTo_roundTo (k : Nat) (q : ℚ) : roundTo k (roundTo k q) = roundTo k q := by
  apply roundTo_eq_self k _ (round (q * (10 : ℚ) ^ k))
  rw [roundTo]
  field_simp

theorem toFixed_parseDec_self (d : Dec) (k : Nat) (h : d.exp = k) :
    toFixed k (parseDec d) = d := by
  have hmul : parseDec d * (10 : ℚ) ^ k = (d.num : ℚ) := by
    rw [parseDec, h]
    field_simp
  rw [toFixed_eq_mk k _ d.num hmul, ← h]

theorem exp_toFixed (k : Nat) (q : ℚ) : (toFixed k q).exp = k := rfl

/-- A price written at the tick's precision that denotes a multiple of the tick
is its own aggregation bucket. -/
theorem bucket_id (t p : Dec) (isBid : Bool) (hT : 0 < parseDec t)
    (hexp : p.exp = getPrecisionFromTickSize t)
    (hmul : ∃ n : ℤ, parseDec p = (n : ℚ) * parseDec t) :
    getBucketForPrice p isBid t = p := by
  obtain ⟨n, hn⟩ := hmul
  have hTne : parseDec t ≠ 0 := ne_of_gt hT
  have hdiv : parseDec p / parseDec t = (n : ℚ) := by
    rw [hn, mul_div_assoc, div_self hTne, mul_one]
  rw [getBucketForPrice]
  cases isBid with
  | true =>
      rw [if_pos rfl]
      rw [hdiv, Int.floor_intCast, ← hn, toFixed_parseDec_self p _ hexp]
  | false =>
      rw [if_neg Bool.false_ne_true]
      rw [hdiv, Int.ceil_intCast, ← hn, toFixed_parseDec_self p _ hexp]

/-- C2 counterexample: for the map {bids: {"0.6": "100"}} at tick 0.01,
`aggregate(build, 0.01, 0.01)` re-formats the level price to "0.60"
(`toFixed(2)` of the bucket) while the unaggregated build keeps the original
string "0.6" — the level arrays are not identical. -/
theorem C2_counterexample :
    ((Aggregator_aggregate (BookBuilder_build ⟨[(⟨6, 1⟩, ⟨100, 0⟩)], []⟩ ⟨1, 2⟩)
        ⟨1, 2⟩ ⟨1, 2⟩).zero.bidArray.map (fun l => l.price)) = [⟨60, 2⟩]
    ∧ ((BookBuilder_build ⟨[(⟨6, 1⟩, ⟨100, 0⟩)], []⟩ ⟨1, 2⟩).zero.bidArray.map
        (fun l => l.price)) = [⟨6, 1⟩]
    ∧ (⟨60, 2⟩ : Dec) ≠ (⟨6, 1⟩ : Dec) := by
  have hnorm : normDec ⟨1, 2⟩ = ⟨1, 2⟩ := by
    rw [normDec]
    norm_num
  have hprec : getPrecisionFromTickSize ⟨1, 2⟩ = 2 := by
    rw [getPrecisionFromTickSize, if_neg, hnorm]
    rw [parseDec]
    norm_num
  have hbucket : getBucketForPrice ⟨6, 1⟩ true ⟨1, 2⟩ = ⟨60, 2⟩ := by
    rw [getBucketForPrice]
    simp only [if_true, hprec]
    rw [show parseDec ⟨6, 1⟩ / parseDec ⟨1, 2⟩ = (60 : ℚ) by
      rw [parseDec, parseDec]; norm_num]
    rw [show ((⌊(60 : ℚ)⌋ : ℤ) : ℚ) * parseDec ⟨1, 2⟩ = (3 : ℚ) / 5 by
      rw [parseDec]; norm_num]
    rw [toFixed]
    norm_num [round_eq]
  have hbuild : (BookBuilder_build ⟨[(⟨6, 1⟩, ⟨100, 0⟩)], []⟩ ⟨1, 2⟩).zero.bidArray.map
      (fun l => l.price) = [⟨6, 1⟩] := by
    rw [BookBuilder_build]
    simp [parseSide, parseSideAux, stableSort, insertBefore]
  have hlist : (BookBuilder_build ⟨[(⟨6, 1⟩, ⟨100, 0⟩)], []⟩ ⟨1, 2⟩).zero.bidArray
      = [{ price := ⟨6, 1⟩,
           size := parseDec ⟨100, 0⟩,
           value := roundTo 2 (parseDec ⟨6, 1⟩ * parseDec ⟨100, 0⟩),
           netSize := roundTo 2 (0 + parseDec ⟨100, 0⟩),
           netValue := roundTo 2 (0 + parseDec ⟨6, 1⟩ * parseDec ⟨100, 0⟩),
           includedLevels := [] }] := by
    rw [BookBuilder_build]
    simp [parseSide, parseSideAux, stableSort, insertBefore]
  have hagg : aggregateBuckets [{ price := (⟨6, 1⟩ : Dec),
                                  size := parseDec ⟨100, 0⟩,
                                  value := roundTo 2 (parseDec ⟨6, 1⟩ * parseDec ⟨100, 0⟩),
                                  netSize := roundTo 2 (0 + parseDec ⟨100, 0⟩),
                                  netValue := roundTo 2 (0 + parseDec ⟨6, 1⟩ * parseDec ⟨100, 0⟩),
                                  includedLevels := ([] : List Dec) }] ⟨1, 2⟩ true
      = [((⟨60, 2⟩ : Dec), { price := (⟨60, 2⟩ : Dec),
                             size := parseDec ⟨100, 0⟩,
                             value := roundTo 2 (parseDec ⟨6, 1⟩ * parseDec ⟨100, 0⟩),
                             includedLevels := [⟨6, 1⟩] })] := by
    rw [aggregateBuckets, List.foldl_cons, List.foldl_nil, aggregateBucketsStep]
    rw [show mapGet ([] : List (Dec × Bucket)) (getBucketForPrice ⟨6, 1⟩ true ⟨1, 2⟩)
        = none from rfl]
    rw [hbucket]
    rfl
  refine ⟨?_, hbuild, by decide⟩
  show ((aggregateSide (BookBuilder_build ⟨[(⟨6, 1⟩, ⟨100, 0⟩)], []⟩ ⟨1, 2⟩).zero.bidArray
      false ⟨1, 2⟩ true).map (fun l => l.price)) = [⟨60, 2⟩]
  rw [hlist, aggregateSide, hagg]
  simp [stableSort, insertBefore, accumulateLevels, bucketToLevel]

theorem mapGet_append_none {κ α : Type} [DecidableEq κ] (m1 m2 : List (κ × α)) (k : κ)
    (h : mapGet m1 k = none) : mapGet (m1 ++ m2) k = mapGet m2 k := by
  induction m1 with
  | nil => rfl
  | cons e rest ih =>
      rw [mapGet] at h
      by_cases he : e.1 = k
      · rw [if_pos he] at h
        cases h
      · rw [if_neg he] at h
        rw [List.cons_append, mapGet, if_neg he]
        exact ih h

theorem mapSet_absent {κ α : Type} [DecidableEq κ] (m : List (κ × α)) (k : κ) (v : α)
    (h : mapGet m k = none) : mapSet m k v = m ++ [(k, v)] := by
  induction m with
  | nil => rfl
  | cons e rest ih =>
      rw [mapGet] at h
      by_cases he : e.1 = k
      · rw [if_pos he] at h
        cases h
      · rw [if_neg he] at h
        rw [mapSet, if_neg he, List.cons_append, ih h]

theorem aggregateBuckets_fold_eq (t : Dec) (isBid : Bool) :
    ∀ (levels : List ProcessedLevel) (acc : List (Dec × Bucket)),
      (∀ l ∈ levels, getBucketForPrice l.price isBid t = l.price) →
      ((levels.map (fun l => l.price)).Nodup) →
      (∀ l ∈ levels, mapGet acc l.price = none) →
      levels.foldl (aggregateBucketsStep t isBid) acc
        = acc ++ levels.map (fun l => (l.price,
            ({ price := l.price, size := l.size, value := l.value,
               includedLevels := [l.price] } : Bucket))) := by
  intro levels
  induction levels with
  | nil => intro acc _ _ _; simp
  | cons x rest ih =>
      intro acc hid hnod hacc
      rw [List.foldl_cons]
      have hidx := hid x (List.mem_cons_self _ _)
      have haccx := hacc x (List.mem_cons_self _ _)
      have hstep : aggregateBucketsStep t isBid acc x
          = acc ++ [(x.price, { price := x.price, size := x.size, value := x.value,
                                includedLevels := [x.price] })] := by
        rw [aggregateBucketsStep, hidx, haccx]
        exact mapSet_absent _ _ _ haccx
      rw [hstep]
      simp only [List.map_cons, List.nodup_cons] at hnod
      have hrest : ∀ l ∈ rest, mapGet (acc ++ [(x.price,
          ({ price := x.price, size := x.size, value := x.value,
             includedLevels := [x.price] } : Bucket))]) l.price = none := by
        intro l hl
        rw [mapGet_append_none _ _ _ (hacc l (List.mem_cons_of_mem _ hl))]
        have hne : x.price ≠ l.price := by
          intro hc
          exact hnod.1 (hc ▸ (List.mem_map.2 ⟨l, hl, rfl⟩))
        rw [mapGet, if_neg hne, mapGet]
      rw [ih _ (fun l hl => hid l (List.mem_cons_of_mem _ hl)) hnod.2 hrest]
      simp [List.append_assoc]

theorem invertBuckets_fold_eq (sp tp : Nat) (mn : ℚ) :
    ∀ (levels : List ProcessedLevel) (acc : List (Dec × Bucket)),
      ((levels.map (fun l => (Aggregator_invertPrice l.price sp (some mn)).2)).Nodup) →
      (∀ l ∈ levels, mapGet acc (Aggregator_invertPrice l.price sp (some mn)).2 = none) →
      levels.foldl (invertBucketsStep sp tp mn) acc
        = acc ++ levels.map (fun l => ((Aggregator_invertPrice l.price sp (some mn)).2,
            ({ price := (Aggregator_invertPrice l.price sp (some mn)).2,
               size := l.size,
               value := (Aggregator_invertPrice l.price sp (some mn)).1 * l.size,
               includedLevels := l.includedLevels.map
                 (fun p => (Aggregator_invertPrice p tp none).2) } : Bucket))) := by
  intro levels
  induction levels with
  | nil => intro acc _ _; simp
  | cons x rest ih =>
      intro acc hnod hacc
      rw [List.foldl_cons]
      have haccx := hacc x (List.mem_cons_self _ _)
      have hstep : invertBucketsStep sp tp mn acc x
          = acc ++ [((Aggregator_invertPrice x.price sp (some mn)).2,
              { price := (Aggregator_invertPrice x.price sp (some mn)).2,
                size := x.size,
                value := (Aggregator_invertPrice x.price sp (some mn)).1 * x.size,
                includedLevels := x.includedLevels.map
                  (fun p => (Aggregator_invertPrice p tp none).2) })] := by
        rw [invertBucketsStep, haccx]
        exact mapSet_absent _ _ _ haccx
      rw [hstep]
      simp only [List.map_cons, List.nodup_cons] at hnod
      have hrest : ∀ l ∈ rest, mapGet (acc ++ [((Aggregator_invertPrice x.price sp (some mn)).2,
          ({ price := (Aggregator_invertPrice x.price sp (some mn)).2,
             size := x.size,
             value := (Aggregator_invertPrice x.price sp (some mn)).1 * x.size,
             includedLevels := x.includedLevels.map
               (fun p => (Aggregator_invertPrice p tp none).2) } : Bucket))])
          (Aggregator_invertPrice l.price sp (some mn)).2 = none := by
        intro l hl
        rw [mapGet_append_none _ _ _ (hacc l (List.mem_cons_of_mem _ hl))]
        have hne : (Aggregator_invertPrice x.price sp (some mn)).2
            ≠ (Aggregator_invertPrice l.price sp (some mn)).2 := by
          intro hc
          exact hnod.1 (hc ▸ (List.mem_map.2 ⟨l, hl, rfl⟩))
        rw [mapGet, if_neg hne, mapGet]
      rw [ih _ hnod.2 hrest]
      simp [List.append_assoc]

theorem parseSideAux_map {γ : Type} (psi : ProcessedLevel → γ) (φ : Dec → ℚ → ℚ → γ)
    (hpsi : ∀ l, psi l = φ l.price l.size l.value) :
    ∀ (E : List (Dec × Dec)) (cs cv : ℚ),
    (parseSideAux E cs cv).map psi
      = E.map (fun en => φ en.1 (parseDec en.2)
          (roundTo 2 (parseDec en.1 * parseDec en.2))) := by
  intro E
  induction E with
  | nil => intro cs cv; rfl
  | cons en rest ih =>
      intro cs cv
      rw [parseSideAux, List.map_cons, List.map_cons, ih, hpsi]

theorem levelCmp_pairwise_of_desc (xs : List ProcessedLevel)
    (h : xs.Pairwise fun a b => parseDec b.price ≤ parseDec a.price) :
    xs.Pairwise (fun a b => levelCmp false b a = false) :=
  h.imp fun hab => by
    rw [levelCmp_false_eq]
    exact decide_eq_false (not_lt.2 hab)

theorem levelCmp_pairwise_of_asc (xs : List ProcessedLevel)
    (h : xs.Pairwise fun a b => parseDec a.price ≤ parseDec b.price) :
    xs.Pairwise (fun a b => levelCmp true b a = false) :=
  h.imp fun hab => by
    rw [levelCmp_true_eq]
    exact decide_eq_false (not_lt.2 hab)

theorem entryCmp_true_eq (a b : Dec × Dec) :
    entryCmp true a b = decide (parseDec a.1 < parseDec b.1) := rfl

theorem entryCmp_false_eq (a b : Dec × Dec) :
    entryCmp false a b = decide (parseDec b.1 < parseDec a.1) := rfl

theorem pairwise_entry_desc_stableSort (xs : List (Dec × Dec)) :
    (stableSort (entryCmp false) xs).Pairwise
      (fun a b => parseDec b.1 ≤ parseDec a.1) := by
  have hp := stableSort_pairwise (entryCmp false)
    (fun a b h => by
      rw [entryCmp_false_eq] at h ⊢
      exact decide_eq_false (lt_asymm (of_decide_eq_true h)))
    (fun a b c hba hcb => by
      rw [entryCmp_false_eq] at hba hcb ⊢
      exact decide_eq_false (not_lt.2 (le_trans
        (not_lt.1 (of_decide_eq_false hcb)) (not_lt.1 (of_decide_eq_false hba)))))
    xs
  exact hp.imp fun h => by
    rw [entryCmp_false_eq] at h
    exact not_lt.1 (of_decide_eq_false h)

theorem pairwise_entry_asc_stableSort (xs : List (Dec × Dec)) :
    (stableSort (entryCmp true) xs).Pairwise
      (fun a b => parseDec a.1 ≤ parseDec b.1) := by
  have hp := stableSort_pairwise (entryCmp true)
    (fun a b h => by
      rw [entryCmp_true_eq] at h ⊢
      exact decide_eq_false (lt_asymm (of_decide_eq_true h)))
    (fun a b c hba hcb => by
      rw [entryCmp_true_eq] at hba hcb ⊢
      exact decide_eq_false (not_lt.2 (le_trans
        (not_lt.1 (of_decide_eq_false hba)) (not_lt.1 (of_decide_eq_false hcb)))))
    xs
  exact hp.imp fun h => by
    rw [entryCmp_true_eq] at h
    exact not_lt.1 (of_decide_eq_false h)

theorem accumulateLevels_map {γ : Type} (psi : ProcessedLevel → γ)
    (hpsi : ∀ l ns nv, psi { l with netSize := ns, netValue := nv } = psi l) :
    ∀ (xs : List ProcessedLevel) (cs cv : ℚ),
    (accumulateLevels xs cs cv).map psi = xs.map psi := by
  intro xs
  induction xs with
  | nil => intro cs cv; rfl
  | cons x rest ih =>
      intro cs cv
      rw [accumulateLevels, List.map_cons, List.map_cons, ih, hpsi]

theorem Aggregator_invertPrice_noclamp (k : Nat) (p : Dec)
    (hlo : (1 : ℚ) / (10 : ℚ) ^ k ≤ 1 - parseDec p)
    (hhi : 1 - parseDec p ≤ 1 - (1 : ℚ) / (10 : ℚ) ^ k) :
    Aggregator_invertPrice p k (some ((1 : ℚ) / (10 : ℚ) ^ k))
      = (1 - parseDec p, toFixed k (1 - parseDec p)) := by
  unfold Aggregator_invertPrice
  simp only [Option.getD_some]
  rw [max_eq_right hlo, min_eq_right hhi]

theorem BookBuilder_invertPrice_nofloor (k : Nat) (p : Dec)
    (h : 0 ≤ 1 - parseDec p) :
    BookBuilder_invertPrice p k = toFixed k (1 - parseDec p) := by
  rw [BookBuilder_invertPrice, max_eq_left h]

theorem parseDec_invert_exact (k : Nat) (p : Dec) (hexp : p.exp = k) :
    parseDec (toFixed k (1 - parseDec p)) = 1 - parseDec p := by
  apply parseDec_toFixed_exact k _ ((10 : ℤ) ^ k - p.num)
  rw [parseDec, hexp]
  push_cast
  field_simp

theorem toFixed_invert_mk (k : Nat) (p : Dec) (hexp : p.exp = k) :
    toFixed k (1 - parseDec p) = ⟨(10 : ℤ) ^ k - p.num, k⟩ := by
  apply toFixed_eq_mk
  rw [parseDec, hexp]
  push_cast
  field_simp

theorem native_accumulate_eq :
    ∀ (E : List (Dec × Dec)),
      (∀ en ∈ E, roundTo 2 (parseDec en.1 * parseDec en.2)
        = parseDec en.1 * parseDec en.2) →
      ∀ (cs cv : ℚ),
      (accumulateLevels (E.map (fun en =>
          ({ price := en.1, size := parseDec en.2,
             value := roundTo 2 (roundTo 2 (parseDec en.1 * parseDec en.2)),
             netSize := 0, netValue := 0,
             includedLevels := [en.1] } : ProcessedLevel))) cs cv).map levelKey
        = (parseSideAux E cs cv).map levelKey := by
  intro E
  induction E with
  | nil => intro _ cs cv; rfl
  | cons en rest ih =>
      intro hval cs cv
      have hv := hval en (List.mem_cons_self _ _)
      simp only [List.map_cons, accumulateLevels, parseSideAux]
      rw [roundTo_roundTo, hv]
      rw [List.cons.injEq]
      exact ⟨rfl, ih (fun e he => hval e (List.mem_cons_of_mem _ he)) _ _⟩

theorem compl_accumulate_eq (k : Nat) :
    ∀ (E : List (Dec × Dec)),
      (∀ en ∈ E,
        (1 : ℚ) / (10 : ℚ) ^ k ≤ 1 - parseDec en.1
        ∧ 1 - parseDec en.1 ≤ 1 - (1 : ℚ) / (10 : ℚ) ^ k
        ∧ en.1.exp = k
        ∧ roundTo 2 ((1 - parseDec en.1) * parseDec en.2)
            = (1 - parseDec en.1) * parseDec en.2) →
      ∀ (cs0 cv0 cs cv : ℚ),
      (accumulateLevels (E.map (fun en =>
          ({ price := (Aggregator_invertPrice en.1 k (some ((1 : ℚ) / (10 : ℚ) ^ k))).2,
             size := parseDec en.2,
             value := roundTo 2
               ((Aggregator_invertPrice en.1 k (some ((1 : ℚ) / (10 : ℚ) ^ k))).1
                 * parseDec en.2),
             netSize := 0, netValue := 0,
             includedLevels := ([en.1] : List Dec).map
               (fun p => (Aggregator_invertPrice p k none).2) } : ProcessedLevel)))
          cs cv).map levelKey
        = (recomputeCumulative ((parseSideAux E cs0 cv0).map (fun l =>
            { l with price := BookBuilder_invertPrice l.price k,
                     includedLevels := ([] : List Dec) })) cv cs).map levelKey := by
  intro E
  induction E with
  | nil => intro _ cs0 cv0 cs cv; rfl
  | cons en rest ih =>
      intro hgood cs0 cv0 cs cv
      obtain ⟨hlo, hhi, hexp, hexact⟩ := hgood en (List.mem_cons_self _ _)
      have hzero : (0 : ℚ) ≤ 1 - parseDec en.1 :=
        le_trans (by positivity) hlo
      have hinv := Aggregator_invertPrice_noclamp k en.1 hlo hhi
      have hbld := BookBuilder_invertPrice_nofloor k en.1 hzero
      have hparse := parseDec_invert_exact k en.1 hexp
      simp only [List.map_cons, accumulateLevels, parseSideAux, recomputeCumulative]
      rw [hinv, hbld, hparse, hexact]
      rw [List.cons.injEq]
      refine ⟨rfl, ?_⟩
      exact ih (fun e he => hgood e (List.mem_cons_of_mem _ he)) _ _ _ _

theorem pairwise_price_parseSideAux (R : ℚ → ℚ → Prop) :
    ∀ (E : List (Dec × Dec)) (cs cv : ℚ),
    E.Pairwise (fun a b => R (parseDec a.1) (parseDec b.1)) →
    (parseSideAux E cs cv).Pairwise (fun a b => R (parseDec a.price) (parseDec b.price)) := by
  intro E
  induction E with
  | nil => intro cs cv _; exact List.Pairwise.nil
  | cons en rest ih =>
      intro cs cv h
      obtain ⟨p, s⟩ := en
      rw [List.pairwise_cons] at h
      rw [parseSideAux]
      refine List.Pairwise.cons ?_ (ih _ _ h.2)
      intro l hl
      obtain ⟨en2, hmem, hp, _⟩ := mem_parseSideAux rest _ _ l hl
      rw [hp]
      exact h.1 en2 hmem

theorem entry_sorted_pairwise (asc : Bool) (xs : List (Dec × Dec)) :
    (stableSort (entryCmp asc) xs).Pairwise (fun a b => entryCmp asc b a = false) := by
  apply stableSort_pairwise
  · intro a b h
    cases asc with
    | false =>
        rw [entryCmp_false_eq] at h ⊢
        exact decide_eq_false (lt_asymm (of_decide_eq_true h))
    | true =>
        rw [entryCmp_true_eq] at h ⊢
        exact decide_eq_false (lt_asymm (of_decide_eq_true h))
  · intro a b c hba hcb
    cases asc with
    | false =>
        rw [entryCmp_false_eq] at hba hcb ⊢
        exact decide_eq_false (not_lt.2 (le_trans (not_lt.1 (of_decide_eq_false hcb))
          (not_lt.1 (of_decide_eq_false hba))))
    | true =>
        rw [entryCmp_true_eq] at hba hcb ⊢
        exact decide_eq_false (not_lt.2 (le_trans (not_lt.1 (of_decide_eq_false hba))
          (not_lt.1 (of_decide_eq_false hcb))))

theorem aggregateSide_parseSide_eq (t : Dec) (E : List (Dec × Dec)) (sortAsc isBid : Bool)
    (hT0 : 0 < parseDec t)
    (hgood : ∀ en ∈ E, en.1.exp = getPrecisionFromTickSize t
      ∧ ∃ n : ℤ, parseDec en.1 = (n : ℚ) * parseDec t)
    (hnod : (E.map Prod.fst).Nodup)
    (hsorted : E.Pairwise (fun a b => entryCmp sortAsc b a = false)) :
    aggregateSide (parseSide E) sortAsc t isBid
      = accumulateLevels (E.map nativeLevel) 0 0 := by
  have hid : ∀ l ∈ parseSide E, getBucketForPrice l.price isBid t = l.price := by
    intro l hl
    obtain ⟨en, hen, hp, _⟩ := mem_parseSideAux E 0 0 l hl
    rw [hp]
    exact bucket_id t en.1 isBid hT0 (hgood en hen).1 (hgood en hen).2
  have hnodp : ((parseSide E).map (fun l => l.price)).Nodup := by
    have hm : (parseSide E).map (fun l => l.price) = E.map (fun en => en.1) :=
      parseSideAux_map (fun l => l.price) (fun p _ _ => p) (fun l => rfl) E 0 0
    rw [hm]
    exact hnod
  have hfold : aggregateBuckets (parseSide E) t isBid
      = (parseSide E).map (fun l => (l.price,
          ({ price := l.price, size := l.size, value := l.value,
             includedLevels := [l.price] } : Bucket))) := by
    rw [aggregateBuckets, aggregateBuckets_fold_eq t isBid (parseSide E) [] hid hnodp
      (fun l _ => rfl), List.nil_append]
  have hmapped : ((parseSide E).map (fun l => (l.price,
        ({ price := l.price, size := l.size, value := l.value,
           includedLevels := [l.price] } : Bucket)))).map (fun e => bucketToLevel e.2)
      = E.map nativeLevel := by
    rw [List.map_map]
    exact parseSideAux_map _ (fun p s v => bucketToLevel
      { price := p, size := s, value := v, includedLevels := [p] }) (fun l => rfl) E 0 0
  have hpair : (E.map nativeLevel).Pairwise (fun a b => levelCmp sortAsc b a = false) :=
    List.Pairwise.map _ (fun a b h => h) hsorted
  calc aggregateSide (parseSide E) sortAsc t isBid
      = accumulateLevels (stableSort (levelCmp sortAsc)
          ((aggregateBuckets (parseSide E) t isBid).map (fun e => bucketToLevel e.2))) 0 0 := rfl
    _ = accumulateLevels (stableSort (levelCmp sortAsc) (E.map nativeLevel)) 0 0 := by
        rw [hfold, hmapped]
    _ = accumulateLevels (E.map nativeLevel) 0 0 := by
        rw [stableSort_eq_self (levelCmp sortAsc) (E.map nativeLevel) hpair]

theorem Aggregator_invertSide_accumulate_eq (k : Nat) (E : List (Dec × Dec)) (sortAsc : Bool)
    (hrange : ∀ en ∈ E,
      (1 : ℚ) / (10 : ℚ) ^ k ≤ 1 - parseDec en.1
      ∧ 1 - parseDec en.1 ≤ 1 - (1 : ℚ) / (10 : ℚ) ^ k
      ∧ en.1.exp = k)
    (hnod : (E.map Prod.fst).Nodup)
    (hpair : (E.map (invLevel k)).Pairwise (fun a b => levelCmp sortAsc b a = false)) :
    Aggregator_invertSide (accumulateLevels (E.map nativeLevel) 0 0) sortAsc k k
      = accumulateLevels (E.map (invLevel k)) 0 0 := by
  have hkeymap : (accumulateLevels (E.map nativeLevel) 0 0).map
        (fun l => (Aggregator_invertPrice l.price k (some ((1 : ℚ) / (10 : ℚ) ^ k))).2)
      = E.map (fun en => (⟨(10 : ℤ) ^ k - en.1.num, k⟩ : Dec)) := by
    rw [accumulateLevels_map
      (fun l => (Aggregator_invertPrice l.price k (some ((1 : ℚ) / (10 : ℚ) ^ k))).2)
      (fun _ _ _ => rfl), List.map_map]
    refine List.map_congr_left (fun en hen => ?_)
    obtain ⟨hlo, hhi, hexp⟩ := hrange en hen
    show (Aggregator_invertPrice en.1 k (some ((1 : ℚ) / (10 : ℚ) ^ k))).2 = _
    rw [Aggregator_invertPrice_noclamp k en.1 hlo hhi]
    exact toFixed_invert_mk k en.1 hexp
  have hnodkeys : ((accumulateLevels (E.map nativeLevel) 0 0).map
      (fun l => (Aggregator_invertPrice l.price k (some ((1 : ℚ) / (10 : ℚ) ^ k))).2)).Nodup := by
    rw [hkeymap]
    refine List.Nodup.map_on ?_ (List.Nodup.of_map Prod.fst hnod)
    intro x hx y hy hF
    have h3 : (10 : ℤ) ^ k - x.1.num = (10 : ℤ) ^ k - y.1.num := congrArg Dec.num hF
    have hnum : x.1.num = y.1.num := by omega
    obtain ⟨_, _, hex⟩ := hrange x hx
    obtain ⟨_, _, hey⟩ := hrange y hy
    refine List.inj_on_of_nodup_map hnod hx hy ?_
    calc x.1 = ⟨x.1.num, x.1.exp⟩ := rfl
      _ = ⟨y.1.num, y.1.exp⟩ := by rw [hnum, hex, hey]
      _ = y.1 := rfl
  have hfold : invertBuckets (accumulateLevels (E.map nativeLevel) 0 0) k k
      = (accumulateLevels (E.map nativeLevel) 0 0).map (fun l =>
          ((Aggregator_invertPrice l.price k (some ((1 : ℚ) / (10 : ℚ) ^ k))).2,
           ({ price := (Aggregator_invertPrice l.price k (some ((1 : ℚ) / (10 : ℚ) ^ k))).2,
              size := l.size,
              value := (Aggregator_invertPrice l.price k (some ((1 : ℚ) / (10 : ℚ) ^ k))).1
                * l.size,
              includedLevels := l.includedLevels.map
                (fun p => (Aggregator_invertPrice p k none).2) } : Bucket))) := by
    rw [invertBuckets, invertBuckets_fold_eq k k ((1 : ℚ) / (10 : ℚ) ^ k)
      (accumulateLevels (E.map nativeLevel) 0 0) [] hnodkeys (fun l _ => rfl),
      List.nil_append]
  have hmapped : (((accumulateLevels (E.map nativeLevel) 0 0).map (fun l =>
        ((Aggregator_invertPrice l.price k (some ((1 : ℚ) / (10 : ℚ) ^ k))).2,
         ({ price := (Aggregator_invertPrice l.price k (some ((1 : ℚ) / (10 : ℚ) ^ k))).2,
            size := l.size,
            value := (Aggregator_invertPrice l.price k (some ((1 : ℚ) / (10 : ℚ) ^ k))).1
              * l.size,
            includedLevels := l.includedLevels.map
              (fun p => (Aggregator_invertPrice p k none).2) } : Bucket)))).map
        (fun e => bucketToLevel e.2))
      = E.map (invLevel k) := by
    rw [List.map_map]
    rw [accumulateLevels_map ((fun (e : Dec × Bucket) => bucketToLevel e.2) ∘ (fun l =>
        ((Aggregator_invertPrice l.price k (some ((1 : ℚ) / (10 : ℚ) ^ k))).2,
         ({ price := (Aggregator_invertPrice l.price k (some ((1 : ℚ) / (10 : ℚ) ^ k))).2,
            size := l.size,
            value := (Aggregator_invertPrice l.price k (some ((1 : ℚ) / (10 : ℚ) ^ k))).1
              * l.size,
            includedLevels := l.includedLevels.map
              (fun p => (Aggregator_invertPrice p k none).2) } : Bucket))))
      (fun _ _ _ => rfl), List.map_map]
    rfl
  calc Aggregator_invertSide (accumulateLevels (E.map nativeLevel) 0 0) sortAsc k k
      = accumulateLevels (stableSort (levelCmp sortAsc)
          ((invertBuckets (accumulateLevels (E.map nativeLevel) 0 0) k k).map
            (fun e => bucketToLevel e.2))) 0 0 := rfl
    _ = accumulateLevels (stableSort (levelCmp sortAsc) (E.map (invLevel k))) 0 0 := by
        rw [hfold, hmapped]
    _ = accumulateLevels (E.map (invLevel k)) 0 0 := by
        rw [stableSort_eq_self (levelCmp sortAsc) (E.map (invLevel k)) hpair]

/-- C2 (amended): aggregation at the native tick size is a no-op up to the
re-formatting of price strings.  For a price map whose price strings are
written at exactly the tick size's decimal precision, denote multiples of the
tick inside `[tick, 1 − tick]`, have no duplicate keys on either side, and
whose per-level notional values (native and inverted) are exact at two
decimals, `aggregate(build(m, t), t, t)` produces, on all four level arrays
(native bids/asks and complementary bids/asks), levels with the same price,
size, value, netSize and netValue as `build(m, t)` alone.  (Without the
exact-precision condition the price strings differ, see the counterexample:
"0.6" is re-formatted to "0.60".) -/
theorem C2_amended (m : PriceMap) (t : Dec)
    (hT : (1 : ℚ) / (10 : ℚ) ^ getPrecisionFromTickSize t ≤ parseDec t)
    (hb : ∀ en ∈ m.bids, GoodEntry t en)
    (ha : ∀ en ∈ m.asks, GoodEntry t en)
    (hnb : (m.bids.map Prod.fst).Nodup)
    (hna : (m.asks.map Prod.fst).Nodup) :
    ((Aggregator_aggregate (BookBuilder_build m t) t t).zero.bidArray.map levelKey
        = (BookBuilder_build m t).zero.bidArray.map levelKey)
    ∧ ((Aggregator_aggregate (BookBuilder_build m t) t t).zero.askArray.map levelKey
        = (BookBuilder_build m t).zero.askArray.map levelKey)
    ∧ ((Aggregator_aggregate (BookBuilder_build m t) t t).one.bidArray.map levelKey
        = (BookBuilder_build m t).one.bidArray.map levelKey)
    ∧ ((Aggregator_aggregate (BookBuilder_build m t) t t).one.askArray.map levelKey
        = (BookBuilder_build m t).one.askArray.map levelKey) := by
  set k := getPrecisionFromTickSize t with hkdef
  set Eb := stableSort (entryCmp false) m.bids with hEbdef
  set Ea := stableSort (entryCmp true) m.asks with hEadef
  have hT0 : 0 < parseDec t := lt_of_lt_of_le (by positivity) hT
  have hgoodEb : ∀ en ∈ Eb, GoodEntry t en :=
    fun en hen => hb en ((mem_stableSort (entryCmp false) m.bids en).1 hen)
  have hgoodEa : ∀ en ∈ Ea, GoodEntry t en :=
    fun en hen => ha en ((mem_stableSort (entryCmp true) m.asks en).1 hen)
  have hnodEb : (Eb.map Prod.fst).Nodup :=
    (List.Perm.nodup_iff ((stableSort_perm (entryCmp false) m.bids).map Prod.fst)).2 hnb
  have hnodEa : (Ea.map Prod.fst).Nodup :=
    (List.Perm.nodup_iff ((stableSort_perm (entryCmp true) m.asks).map Prod.fst)).2 hna
  have hcplEb : ∀ en ∈ Eb,
      (1 : ℚ) / (10 : ℚ) ^ k ≤ 1 - parseDec en.1
      ∧ 1 - parseDec en.1 ≤ 1 - (1 : ℚ) / (10 : ℚ) ^ k
      ∧ en.1.exp = k
      ∧ roundTo 2 ((1 - parseDec en.1) * parseDec en.2)
          = (1 - parseDec en.1) * parseDec en.2 := by
    intro en hen
    obtain ⟨hexp, _, hlow, hup, _, hiex⟩ := hgoodEb en hen
    exact ⟨le_trans hT (by linarith), by linarith, hexp, hiex⟩
  have hcplEa : ∀ en ∈ Ea,
      (1 : ℚ) / (10 : ℚ) ^ k ≤ 1 - parseDec en.1
      ∧ 1 - parseDec en.1 ≤ 1 - (1 : ℚ) / (10 : ℚ) ^ k
      ∧ en.1.exp = k
      ∧ roundTo 2 ((1 - parseDec en.1) * parseDec en.2)
          = (1 - parseDec en.1) * parseDec en.2 := by
    intro en hen
    obtain ⟨hexp, _, hlow, hup, _, hiex⟩ := hgoodEa en hen
    exact ⟨le_trans hT (by linarith), by linarith, hexp, hiex⟩
  have hnatEb : aggregateSide (parseSide Eb) false t true
      = accumulateLevels (Eb.map nativeLevel) 0 0 :=
    aggregateSide_parseSide_eq t Eb false true hT0
      (fun en hen => ⟨(hgoodEb en hen).1, (hgoodEb en hen).2.1⟩) hnodEb
      (entry_sorted_pairwise false m.bids)
  have hnatEa : aggregateSide (parseSide Ea) true t false
      = accumulateLevels (Ea.map nativeLevel) 0 0 :=
    aggregateSide_parseSide_eq t Ea true false hT0
      (fun en hen => ⟨(hgoodEa en hen).1, (hgoodEa en hen).2.1⟩) hnodEa
      (entry_sorted_pairwise true m.asks)
  have hkeyEb : ∀ en ∈ Eb,
      parseDec (Aggregator_invertPrice en.1 k (some ((1 : ℚ) / (10 : ℚ) ^ k))).2
        = 1 - parseDec en.1 := by
    intro en hen
    obtain ⟨hlo, hhi, hexp, _⟩ := hcplEb en hen
    rw [Aggregator_invertPrice_noclamp k en.1 hlo hhi]
    exact parseDec_invert_exact k en.1 hexp
  have hkeyEa : ∀ en ∈ Ea,
      parseDec (Aggregator_invertPrice en.1 k (some ((1 : ℚ) / (10 : ℚ) ^ k))).2
        = 1 - parseDec en.1 := by
    intro en hen
    obtain ⟨hlo, hhi, hexp, _⟩ := hcplEa en hen
    rw [Aggregator_invertPrice_noclamp k en.1 hlo hhi]
    exact parseDec_invert_exact k en.1 hexp
  have hpairInvEb : (Eb.map (invLevel k)).Pairwise
      (fun a b => levelCmp true b a = false) := by
    refine List.Pairwise.map _ (fun a b h => h) ?_
    refine List.Pairwise.imp_of_mem ?_ (pairwise_entry_desc_stableSort m.bids)
    intro a b hma hmb hab
    rw [levelCmp_true_eq]
    show decide
        (parseDec (Aggregator_invertPrice b.1 k (some ((1 : ℚ) / (10 : ℚ) ^ k))).2
          < parseDec (Aggregator_invertPrice a.1 k (some ((1 : ℚ) / (10 : ℚ) ^ k))).2)
      = false
    rw [hkeyEb b hmb, hkeyEb a hma]
    exact decide_eq_false (not_lt.2 (by linarith))
  have hpairInvEa : (Ea.map (invLevel k)).Pairwise
      (fun a b => levelCmp false b a = false) := by
    refine List.Pairwise.map _ (fun a b h => h) ?_
    refine List.Pairwise.imp_of_mem ?_ (pairwise_entry_asc_stableSort m.asks)
    intro a b hma hmb hab
    rw [levelCmp_false_eq]
    show decide
        (parseDec (Aggregator_invertPrice a.1 k (some ((1 : ℚ) / (10 : ℚ) ^ k))).2
          < parseDec (Aggregator_invertPrice b.1 k (some ((1 : ℚ) / (10 : ℚ) ^ k))).2)
      = false
    rw [hkeyEa a hma, hkeyEa b hmb]
    exact decide_eq_false (not_lt.2 (by linarith))
  have hinvEb : Aggregator_invertSide (accumulateLevels (Eb.map nativeLevel) 0 0) true k k
      = accumulateLevels (Eb.map (invLevel k)) 0 0 :=
    Aggregator_invertSide_accumulate_eq k Eb true
      (fun en hen => ⟨(hcplEb en hen).1, (hcplEb en hen).2.1, (hcplEb en hen).2.2.1⟩)
      hnodEb hpairInvEb
  have hinvEa : Aggregator_invertSide (accumulateLevels (Ea.map nativeLevel) 0 0) false k k
      = accumulateLevels (Ea.map (invLevel k)) 0 0 :=
    Aggregator_invertSide_accumulate_eq k Ea false
      (fun en hen => ⟨(hcplEa en hen).1, (hcplEa en hen).2.1, (hcplEa en hen).2.2.1⟩)
      hnodEa hpairInvEa
  have hGkeyEb : ∀ l ∈ parseSideAux Eb 0 0,
      parseDec (BookBuilder_invertPrice l.price k) = 1 - parseDec l.price := by
    intro l hl
    obtain ⟨en, hen, hp, _⟩ := mem_parseSideAux Eb 0 0 l hl
    obtain ⟨hlo, _, hexp, _⟩ := hcplEb en hen
    rw [hp, BookBuilder_invertPrice_nofloor k en.1 (le_trans (by positivity) hlo)]
    exact parseDec_invert_exact k en.1 hexp
  have hGkeyEa : ∀ l ∈ parseSideAux Ea 0 0,
      parseDec (BookBuilder_invertPrice l.price k) = 1 - parseDec l.price := by
    intro l hl
    obtain ⟨en, hen, hp, _⟩ := mem_parseSideAux Ea 0 0 l hl
    obtain ⟨hlo, _, hexp, _⟩ := hcplEa en hen
    rw [hp, BookBuilder_invertPrice_nofloor k en.1 (le_trans (by positivity) hlo)]
    exact parseDec_invert_exact k en.1 hexp
  have hGEb : ((parseSideAux Eb 0 0).map (fun l =>
      { l with price := BookBuilder_invertPrice l.price k,
               includedLevels := ([] : List Dec) })).Pairwise
      (fun a b => levelCmp true b a = false) := by
    have h2 : (parseSideAux Eb 0 0).Pairwise
        (fun a b => parseDec b.price ≤ parseDec a.price) :=
      pairwise_price_parseSideAux (fun x y => y ≤ x) Eb 0 0
        (pairwise_entry_desc_stableSort m.bids)
    refine List.Pairwise.map _ (fun a b h => h) ?_
    refine List.Pairwise.imp_of_mem ?_ h2
    intro a b hma hmb hab
    rw [levelCmp_true_eq]
    show decide (parseDec (BookBuilder_invertPrice b.price k)
        < parseDec (BookBuilder_invertPrice a.price k)) = false
    rw [hGkeyEb b hmb, hGkeyEb a hma]
    exact decide_eq_false (not_lt.2 (by linarith))
  have hGEa : ((parseSideAux Ea 0 0).map (fun l =>
      { l with price := BookBuilder_invertPrice l.price k,
               includedLevels := ([] : List Dec) })).Pairwise
      (fun a b => levelCmp false b a = false) := by
    have h2 : (parseSideAux Ea 0 0).Pairwise
        (fun a b => parseDec a.price ≤ parseDec b.price) :=
      pairwise_price_parseSideAux (fun x y => x ≤ y) Ea 0 0
        (pairwise_entry_asc_stableSort m.asks)
    refine List.Pairwise.map _ (fun a b h => h) ?_
    refine List.Pairwise.imp_of_mem ?_ h2
    intro a b hma hmb hab
    rw [levelCmp_false_eq]
    show decide (parseDec (BookBuilder_invertPrice a.price k)
        < parseDec (BookBuilder_invertPrice b.price k)) = false
    rw [hGkeyEa a hma, hGkeyEa b hmb]
    exact decide_eq_false (not_lt.2 (by linarith))
  refine ⟨?_, ?_, ?_, ?_⟩
  · calc ((Aggregator_aggregate (BookBuilder_build m t) t t).zero.bidArray).map levelKey
        = (aggregateSide (parseSide Eb) false t true).map levelKey := rfl
      _ = (accumulateLevels (Eb.map nativeLevel) 0 0).map levelKey := by rw [hnatEb]
      _ = (parseSideAux Eb 0 0).map levelKey :=
          native_accumulate_eq Eb (fun en hen => (hgoodEb en hen).2.2.2.2.1) 0 0
      _ = ((BookBuilder_build m t).zero.bidArray).map levelKey := rfl
  · calc ((Aggregator_aggregate (BookBuilder_build m t) t t).zero.askArray).map levelKey
        = (aggregateSide (parseSide Ea) true t false).map levelKey := rfl
      _ = (accumulateLevels (Ea.map nativeLevel) 0 0).map levelKey := by rw [hnatEa]
      _ = (parseSideAux Ea 0 0).map levelKey :=
          native_accumulate_eq Ea (fun en hen => (hgoodEa en hen).2.2.2.2.1) 0 0
      _ = ((BookBuilder_build m t).zero.askArray).map levelKey := rfl
  · calc ((Aggregator_aggregate (BookBuilder_build m t) t t).one.bidArray).map levelKey
        = (Aggregator_invertSide (aggregateSide (parseSide Ea) true t false)
            false k k).map levelKey := rfl
      _ = (Aggregator_invertSide (accumulateLevels (Ea.map nativeLevel) 0 0)
            false k k).map levelKey := by rw [hnatEa]
      _ = (accumulateLevels (Ea.map (invLevel k)) 0 0).map levelKey := by rw [hinvEa]
      _ = (recomputeCumulative ((parseSideAux Ea 0 0).map (fun l =>
            { l with price := BookBuilder_invertPrice l.price k,
                     includedLevels := ([] : List Dec) })) 0 0).map levelKey :=
          compl_accumulate_eq k Ea hcplEa 0 0 0 0
      _ = ((BookBuilder_build m t).one.bidArray).map levelKey := by
          show (recomputeCumulative ((parseSideAux Ea 0 0).map (fun l =>
              { l with price := BookBuilder_invertPrice l.price k,
                       includedLevels := ([] : List Dec) })) 0 0).map levelKey
            = (recomputeCumulative (stableSort (levelCmp false)
                ((parseSideAux Ea 0 0).map (fun l =>
                  { l with price := BookBuilder_invertPrice l.price k,
                           includedLevels := ([] : List Dec) }))) 0 0).map levelKey
          rw [stableSort_eq_self (levelCmp false) ((parseSideAux Ea 0 0).map (fun l =>
            { l with price := BookBuilder_invertPrice l.price k,
                     includedLevels := ([] : List Dec) })) hGEa]
  · calc ((Aggregator_aggregate (BookBuilder_build m t) t t).one.askArray).map levelKey
        = (Aggregator_invertSide (aggregateSide (parseSide Eb) false t true)
            true k k).map levelKey := rfl
      _ = (Aggregator_invertSide (accumulateLevels (Eb.map nativeLevel) 0 0)
            true k k).map levelKey := by rw [hnatEb]
      _ = (accumulateLevels (Eb.map (invLevel k)) 0 0).map levelKey := by rw [hinvEb]
      _ = (recomputeCumulative ((parseSideAux Eb 0 0).map (fun l =>
            { l with price := BookBuilder_invertPrice l.price k,
                     includedLevels := ([] : List Dec) })) 0 0).map levelKey :=
          compl_accumulate_eq k Eb hcplEb 0 0 0 0
      _ = ((BookBuilder_build m t).one.askArray).map levelKey := by
          show (recomputeCumulative ((parseSideAux Eb 0 0).map (fun l =>
              { l with price := BookBuilder_invertPrice l.price k,
                       includedLevels := ([] : List Dec) })) 0 0).map levelKey
            = (recomputeCumulative (stableSort (levelCmp true)
                ((parseSideAux Eb 0 0).map (fun l =>
                  { l with price := BookBuilder_invertPrice l.price k,
                           includedLevels := ([] : List Dec) }))) 0 0).map levelKey
          rw [stableSort_eq_self (levelCmp true) ((parseSideAux Eb 0 0).map (fun l =>
            { l with price := BookBuilder_invertPrice l.price k,
                     includedLevels := ([] : List Dec) })) hGEb]

theorem C2_amended_witness :
    ((1 : ℚ) / (10 : ℚ) ^ getPrecisionFromTickSize ⟨1, 2⟩ ≤ parseDec ⟨1, 2⟩)
    ∧ (((Aggregator_aggregate (BookBuilder_build
          ⟨[(⟨60, 2⟩, ⟨100, 0⟩)], [(⟨40, 2⟩, ⟨50, 0⟩)]⟩ ⟨1, 2⟩)
          ⟨1, 2⟩ ⟨1, 2⟩).zero.bidArray.map levelKey
        = (BookBuilder_build ⟨[(⟨60, 2⟩, ⟨100, 0⟩)], [(⟨40, 2⟩, ⟨50, 0⟩)]⟩
            ⟨1, 2⟩).zero.bidArray.map levelKey)
      ∧ ((Aggregator_aggregate (BookBuilder_build
            ⟨[(⟨60, 2⟩, ⟨100, 0⟩)], [(⟨40, 2⟩, ⟨50, 0⟩)]⟩ ⟨1, 2⟩)
            ⟨1, 2⟩ ⟨1, 2⟩).zero.askArray.map levelKey
          = (BookBuilder_build ⟨[(⟨60, 2⟩, ⟨100, 0⟩)], [(⟨40, 2⟩, ⟨50, 0⟩)]⟩
              ⟨1, 2⟩).zero.askArray.map levelKey)
      ∧ ((Aggregator_aggregate (BookBuilder_build
            ⟨[(⟨60, 2⟩, ⟨100, 0⟩)], [(⟨40, 2⟩, ⟨50, 0⟩)]⟩ ⟨1, 2⟩)
            ⟨1, 2⟩ ⟨1, 2⟩).one.bidArray.map levelKey
          = (BookBuilder_build ⟨[(⟨60, 2⟩, ⟨100, 0⟩)], [(⟨40, 2⟩, ⟨50, 0⟩)]⟩
              ⟨1, 2⟩).one.bidArray.map levelKey)
      ∧ ((Aggregator_aggregate (BookBuilder_build
            ⟨[(⟨60, 2⟩, ⟨100, 0⟩)], [(⟨40, 2⟩, ⟨50, 0⟩)]⟩ ⟨1, 2⟩)
            ⟨1, 2⟩ ⟨1, 2⟩).one.askArray.map levelKey
          = (BookBuilder_build ⟨[(⟨60, 2⟩, ⟨100, 0⟩)], [(⟨40, 2⟩, ⟨50, 0⟩)]⟩
              ⟨1, 2⟩).one.askArray.map levelKey)) := by
  have hnorm : normDec ⟨1, 2⟩ = ⟨1, 2⟩ := by
    rw [normDec]
    norm_num
  have hk : getPrecisionFromTickSize ⟨1, 2⟩ = 2 := by
    rw [getPrecisionFromTickSize, if_neg, hnorm]
    rw [parseDec]
    norm_num
  have hT : (1 : ℚ) / (10 : ℚ) ^ getPrecisionFromTickSize ⟨1, 2⟩ ≤ parseDec ⟨1, 2⟩ := by
    rw [hk, parseDec]
    norm_num
  have hbent : GoodEntry ⟨1, 2⟩ (⟨60, 2⟩, ⟨100, 0⟩) := by
    refine ⟨?_, ⟨60, ?_⟩, ?_, ?_, ?_, ?_⟩
    · show (2 : ℕ) = getPrecisionFromTickSize ⟨1, 2⟩
      rw [hk]
    · show parseDec ⟨60, 2⟩ = (60 : ℚ) * parseDec ⟨1, 2⟩
      norm_num [parseDec]
    · show parseDec ⟨1, 2⟩ ≤ parseDec ⟨60, 2⟩
      norm_num [parseDec]
    · show parseDec ⟨60, 2⟩ ≤ 1 - parseDec ⟨1, 2⟩
      norm_num [parseDec]
    · exact roundTo_eq_self 2 _ 6000 (by norm_num [parseDec])
    · exact roundTo_eq_self 2 _ 4000 (by norm_num [parseDec])
  have haent : GoodEntry ⟨1, 2⟩ (⟨40, 2⟩, ⟨50, 0⟩) := by
    refine ⟨?_, ⟨40, ?_⟩, ?_, ?_, ?_, ?_⟩
    · show (2 : ℕ) = getPrecisionFromTickSize ⟨1, 2⟩
      rw [hk]
    · show parseDec ⟨40, 2⟩ = (40 : ℚ) * parseDec ⟨1, 2⟩
      norm_num [parseDec]
    · show parseDec ⟨1, 2⟩ ≤ parseDec ⟨40, 2⟩
      norm_num [parseDec]
    · show parseDec ⟨40, 2⟩ ≤ 1 - parseDec ⟨1, 2⟩
      norm_num [parseDec]
    · exact roundTo_eq_self 2 _ 2000 (by norm_num [parseDec])
    · exact roundTo_eq_self 2 _ 3000 (by norm_num [parseDec])
  refine ⟨hT, ?_⟩
  exact C2_amended ⟨[(⟨60, 2⟩, ⟨100, 0⟩)], [(⟨40, 2⟩, ⟨50, 0⟩)]⟩ ⟨1, 2⟩ hT
    (by intro en hen; rcases List.mem_singleton.1 hen with rfl; exact hbent)
    (by intro en hen; rcases List.mem_singleton.1 hen with rfl; exact haent)
    (by decide) (by decide)

end PolyBook
